import Mathlib

/-!
Verification of the physician-dossier engine (`src/app.py`).

The Python source is shallowly embedded: strings are lists of characters,
database/network collaborators are explicit function parameters, and every
operation of the engine (name normalization, CMS payment aggregation, NPI
candidate scoring, PubMed publication matching, and the orchestrating
pipeline) is a total executable Lean function mirroring the source.
-/

namespace Dossier

/-- Strings are modelled as lists of characters. -/
abbrev Str := List Char

/-- Python `str.lower()` (per-character). -/
def lowerL (s : Str) : Str := s.map Char.toLower

/-- Python `str.upper()` (per-character). -/
def upperL (s : Str) : Str := s.map Char.toUpper

/-- Auxiliary tokenizer state machine for `str.split()`:
`acc` holds the current (reversed) in-progress token. -/
def splitWSAux : List Char → List Char → List Str
  | [], acc => if acc.isEmpty then [] else [acc.reverse]
  | c :: cs, acc =>
    if c.isWhitespace then
      (if acc.isEmpty then [] else [acc.reverse]) ++ splitWSAux cs []
    else splitWSAux cs (c :: acc)

/-- Python `str.split()`: split on whitespace runs, dropping empty tokens. -/
def splitWS (s : Str) : List Str := splitWSAux s []

/-- Python `" ".join(parts)`. -/
def joinSpace : List Str → Str
  | [] => []
  | [t] => t
  | t :: t' :: ts => t ++ ' ' :: joinSpace (t' :: ts)

/-- Python substring test `needle in hay`. -/
def isInfixL (needle : Str) : Str → Bool
  | [] => needle.isEmpty
  | c :: cs => needle.isPrefixOf (c :: cs) || isInfixL needle cs

/-- Python `s.rstrip(",")`: remove all trailing commas. -/
def rstripCommas (s : Str) : Str := (s.reverse.dropWhile (· == ',')).reverse

/-- Pop elements from the end of a list while they satisfy `p`
(the Python `while parts and pred(parts[-1]): parts.pop()` loop). -/
def dropTrailing (p : Str → Bool) (l : List Str) : List Str :=
  (l.reverse.dropWhile p).reverse

/-- `TITLE_PREFIXES` from the source. -/
def TITLE_PREFIX_SET : List Str := ["DR".toList, "DR.".toList, "DOCTOR".toList]

/-- `TITLE_SUFFIXES` from the source. -/
def TITLE_SUFFIXES : List Str :=
  ["MD".toList, "M.D.".toList, "DO".toList, "D.O.".toList, "PHD".toList, "PH.D.".toList,
   "MBA".toList, "MS".toList, "FAANS".toList, "FAHA".toList, "FACS".toList, "JR".toList,
   "JR.".toList, "SR".toList, "SR.".toList, "II".toList, "III".toList, "IV".toList]

/-- The leading-token test of the title-stripping loop:
`parts[0].upper().rstrip(",") in TITLE_PREFIXES`. -/
def isTitleToken (t : Str) : Bool := TITLE_PREFIX_SET.contains (rstripCommas (upperL t))

/-- The trailing-token test of the credential-stripping loop:
`parts[-1].upper().rstrip(",") in TITLE_SUFFIXES`. -/
def isCredToken (t : Str) : Bool := TITLE_SUFFIXES.contains (rstripCommas (upperL t))

/-- `if parts and "," in parts[-1]: parts[-1] = parts[-1].split(",")[0]`. -/
def truncLastAtComma (parts : List Str) : List Str :=
  match parts.getLast? with
  | none => parts
  | some t =>
    if t.contains ',' then parts.dropLast ++ [t.takeWhile (fun c => !(c == ','))] else parts

/-- The token list after the two stripping loops of `parse_physician_name`
(before comma truncation). -/
def strippedTokens (s : Str) : List Str :=
  dropTrailing isCredToken ((splitWS s).dropWhile isTitleToken)

/-- The `(first, last, full)` triple produced by `parse_physician_name`. -/
structure ParsedName where
  first : Str
  last : Str
  full : Str
deriving DecidableEq, Repr

/-- `parse_physician_name` from the source: strip titles and credentials,
truncate the last token at a comma, and split into first/last/full. -/
def parse_physician_name (full_name : Str) : ParsedName :=
  if full_name = [] then ⟨[], [], []⟩
  else
    let parts := truncLastAtComma (strippedTokens full_name)
    if parts.length < 2 then ⟨parts.headD [], [], joinSpace parts⟩
    else ⟨parts.headD [], parts.getLastD [], joinSpace parts⟩

/-! ### Collaborator call log

Every embedded operation returns, alongside its result, the list of
collaborator calls it issued (database queries, registry lookups,
literature-index searches). -/

/-- One outbound collaborator call. -/
inductive Call where
  | cmsByName (first last : Str)
  | cmsByNpi (npi : Str)
  | npiRegistry (first last : Str) (state city : Option Str)
  | eduLookup (first last : Str)
  | pubmedSearch (term : Str)
  | pubmedFetch (ids : List Str)
deriving DecidableEq, Repr

/-! ### CMS payment aggregation (`fetch_cms_payments_from_db`) -/

/-- One row of the CMS payments query result (the SQL `GROUP BY` output):
physician columns, normalized company name, summed amount/count, year.
Nullable SQL columns are `Option`s. -/
structure CmsRow where
  name : Option Str
  npi : Option Str
  specialty : Option Str
  city : Option Str
  state : Option Str
  company : Option Str
  amount : Option ℚ
  count : Option Int
  year : Int
deriving DecidableEq, Repr

/-- The designated organization constant `"J&J/Cerenovus"`. -/
def JNJ : Str := "J&J/Cerenovus".toList

/-- `company = row[5] or "Other"`. -/
def rowCompany (r : CmsRow) : Str :=
  match r.company with
  | none => "Other".toList
  | some c => if c = [] then "Other".toList else c

/-- `amount = float(row[6] or 0)`. -/
def rowAmount (r : CmsRow) : ℚ := r.amount.getD 0

/-- `count = int(row[7] or 0)`. -/
def rowCount (r : CmsRow) : Int := r.count.getD 0

/-- One aggregated per-company group (`company_totals[company]`). -/
structure CompanyTotal where
  competitor : Str
  total_amount : ℚ
  payment_count : Int
  is_jnj : Bool
deriving DecidableEq, Repr

/-- Dictionary update for one row: add the row's amount/count to the entry
for `comp`, inserting a fresh zero-based entry first when absent (Python
dict semantics, insertion order preserved). -/
def bumpCompany (comp : Str) (amount : ℚ) (cnt : Int) :
    List CompanyTotal → List CompanyTotal
  | [] => [⟨comp, amount, cnt, comp == JNJ⟩]
  | e :: es =>
    if e.competitor == comp then
      { e with total_amount := e.total_amount + amount,
               payment_count := e.payment_count + cnt } :: es
    else e :: bumpCompany comp amount cnt es

/-- The `company_totals` dictionary built by the aggregation loop. -/
def companyTotals (rows : List CmsRow) : List CompanyTotal :=
  rows.foldl (fun acc r => bumpCompany (rowCompany r) (rowAmount r) (rowCount r) acc) []

/-- The `total_jnj_amount` / `total_competitor_amount` accumulation loop,
returning `(competitor, jnj)`. -/
def totalsOf (l : List CompanyTotal) : ℚ × ℚ :=
  l.foldl
    (fun p e =>
      if e.is_jnj then (p.1, p.2 + e.total_amount) else (p.1 + e.total_amount, p.2))
    (0, 0)

/-- `sorted(..., key=lambda x: (x["is_jnj"], -x["total_amount"]))`:
competitors first (amount descending), the designated group last. -/
def relLE (a b : CompanyTotal) : Bool :=
  (!a.is_jnj && b.is_jnj) ||
    (a.is_jnj == b.is_jnj && decide (b.total_amount ≤ a.total_amount))

/-- The physician info embedded in a direct-store row (`rows[0]`). -/
structure PhysicianInfo where
  name : Option Str
  npi : Option Str
  specialty : Option Str
  city : Option Str
  state : Option Str
deriving DecidableEq, Repr

/-- The result dictionary of `fetch_cms_payments_from_db`. -/
structure CmsResult where
  payments_found : Bool
  total_competitor_amount : ℚ
  total_jnj_amount : ℚ
  relationships : List CompanyTotal
  physician_info : Option PhysicianInfo
  error : Option Str
deriving DecidableEq, Repr

/-- The initial `result` dictionary of `fetch_cms_payments_from_db`. -/
def emptyCmsResult : CmsResult :=
  { payments_found := false, total_competitor_amount := 0, total_jnj_amount := 0,
    relationships := [], physician_info := none, error := none }

/-- Aggregation of the returned rows (the body after the query): physician
info from the first row, per-company totals, the two scalar totals, and the
sorted relationship list. -/
def aggregateCms (rows : List CmsRow) : CmsResult :=
  match rows with
  | [] => emptyCmsResult
  | r0 :: _ =>
    let totals := companyTotals rows
    let t := totalsOf totals
    { payments_found := true
      total_competitor_amount := t.1
      total_jnj_amount := t.2
      relationships := totals.mergeSort relLE
      physician_info := some ⟨r0.name, r0.npi, r0.specialty, r0.city, r0.state⟩
      error := none }

/-- The payments store collaborator: connection availability plus the two
query shapes (`WHERE npi = :npi` and the name-filtered query); `Except`
models a query raising. -/
structure CmsDb where
  available : Bool
  byName : Str → Str → Except Str (List CmsRow)
  byNpi : Str → Except Str (List CmsRow)

/-- `fetch_cms_payments_from_db(first_name, last_name, npi=None)`. -/
def fetch_cms_payments_from_db (db : CmsDb) (first_name last_name : Str)
    (npi : Option Str) : CmsResult × List Call :=
  if !db.available then
    ({ emptyCmsResult with error := some "Database not available".toList }, [])
  else
    match npi with
    | some n =>
      match db.byNpi n with
      | .error e => ({ emptyCmsResult with error := some e }, [.cmsByNpi n])
      | .ok rows => (aggregateCms rows, [.cmsByNpi n])
    | none =>
      match db.byName first_name last_name with
      | .error e =>
        ({ emptyCmsResult with error := some e }, [.cmsByName first_name last_name])
      | .ok rows => (aggregateCms rows, [.cmsByName first_name last_name])

/-! ### NPI registry lookup (`lookup_npi`) -/

/-- `NEURO_SPECIALTIES` from the source. -/
def NEURO_SPECIALTIES : List Str :=
  ["Neurological Surgery".toList, "Neurology".toList,
   "Interventional Neuroradiology".toList, "Vascular Neurology".toList,
   "Neuroradiology".toList, "Endovascular Surgical Neuroradiology".toList,
   "Vascular Surgery".toList, "Interventional Radiology".toList]

/-- One address record of a raw registry hit. -/
structure NpiAddress where
  address_purpose : Str
  state : Str
  city : Str
deriving DecidableEq, Repr

/-- One taxonomy record of a raw registry hit. -/
structure NpiTaxonomy where
  desc : Str
  primary : Bool
deriving DecidableEq, Repr

/-- One raw registry hit (`entry` of the NPI API response). -/
structure NpiEntry where
  number : Option Str
  first_name : Str
  last_name : Str
  addresses : List NpiAddress
  taxonomies : List NpiTaxonomy
deriving DecidableEq, Repr

/-- `next((a for a in addresses if purpose == "LOCATION"), addresses[0] if addresses else {})`. -/
def practiceAddr (e : NpiEntry) : NpiAddress :=
  match e.addresses.filter (fun a => a.address_purpose == "LOCATION".toList) with
  | a :: _ => a
  | [] => e.addresses.headD ⟨[], [], []⟩

/-- `next((t["desc"] for t in taxonomies if t["primary"]), None)`. -/
def primarySpecialty (e : NpiEntry) : Option Str :=
  (e.taxonomies.filter (fun t => t.primary)).head?.map (fun t => t.desc)

/-- The candidate score: base 100, +50 state match, +30 city substring
match, +100 neuro specialty match. -/
def npiScore (state city : Option Str) (e : NpiEntry) : Int :=
  let addr := practiceAddr e
  let s1 : Int := 100
  let s2 := s1 +
    (match state with
     | some st => if !st.isEmpty && upperL addr.state == upperL st then 50 else 0
     | none => 0)
  let s3 := s2 +
    (match city with
     | some ci => if !ci.isEmpty && isInfixL (lowerL ci) (lowerL addr.city) then 30 else 0
     | none => 0)
  s3 +
    (match primarySpecialty e with
     | some sp =>
       if !sp.isEmpty && NEURO_SPECIALTIES.any (fun ns => isInfixL (lowerL ns) (lowerL sp))
       then 100 else 0
     | none => 0)

/-- One scored candidate appended to `scored_matches`. -/
structure ScoredMatch where
  npi : Option Str
  name : Str
  specialty : Option Str
  state : Str
  city : Str
  score : Int
deriving DecidableEq, Repr

/-- Build the scored-match record for one raw hit. -/
def mkScored (state city : Option Str) (e : NpiEntry) : ScoredMatch :=
  let addr := practiceAddr e
  { npi := e.number
    name := e.first_name ++ ' ' :: e.last_name
    specialty := primarySpecialty e
    state := addr.state
    city := addr.city
    score := npiScore state city e }

/-- `scored_matches.sort(key=lambda x: x["score"], reverse=True)`:
the stable descending comparison. -/
def scoredGE (a b : ScoredMatch) : Bool := decide (b.score ≤ a.score)

/-- The `address` sub-dictionary of an identity result. -/
structure NpiAddressInfo where
  state : Option Str
  city : Option Str
deriving DecidableEq, Repr

/-- The identity-resolution result dictionary (`result` of `lookup_npi`,
also the shape built from a direct-store hit). -/
structure NpiData where
  found : Bool
  npi : Option Str
  verified_name : Option Str
  specialty : Option Str
  address : Option NpiAddressInfo
  top_matches : List ScoredMatch
  source : Str
  error : Option Str
  message : Option Str
deriving DecidableEq, Repr

/-- The initial `result` dictionary of `lookup_npi`. -/
def emptyNpiData : NpiData :=
  { found := false, npi := none, verified_name := none, specialty := none,
    address := none, top_matches := [], source := "NPI Registry".toList,
    error := none, message := none }

/-- `lookup_npi(first_name, last_name, state, city)`: query the registry
collaborator, score each hit, sort descending (stable), take the best and
retain the top five. -/
def lookup_npi (registry : Str → Str → Option Str → Option Str → Except Str (List NpiEntry))
    (first_name last_name : Str) (state city : Option Str) : NpiData × List Call :=
  let log := [Call.npiRegistry first_name last_name state city]
  match registry first_name last_name state city with
  | .error e => ({ emptyNpiData with error := some e }, log)
  | .ok [] => ({ emptyNpiData with message := some "No NPI matches found".toList }, log)
  | .ok (e0 :: es) =>
    let scored := (e0 :: es).map (mkScored state city)
    match scored.mergeSort scoredGE with
    | [] => (emptyNpiData, log)
    | best :: rest =>
      ({ emptyNpiData with
          found := true
          npi := best.npi
          verified_name := some best.name
          specialty := best.specialty
          address := some ⟨some best.state, some best.city⟩
          top_matches := (best :: rest).take 5 }, log)

/-! ### PubMed publication matching (`score_author_match`,
`fetch_pubmed_publications`) -/

/-- `US_STATES` from the source: abbreviation → full name. -/
def US_STATES : List (Str × Str) :=
  [("AL".toList, "Alabama".toList), ("AK".toList, "Alaska".toList),
   ("AZ".toList, "Arizona".toList), ("AR".toList, "Arkansas".toList),
   ("CA".toList, "California".toList), ("CO".toList, "Colorado".toList),
   ("CT".toList, "Connecticut".toList), ("DE".toList, "Delaware".toList),
   ("FL".toList, "Florida".toList), ("GA".toList, "Georgia".toList),
   ("HI".toList, "Hawaii".toList), ("ID".toList, "Idaho".toList),
   ("IL".toList, "Illinois".toList), ("IN".toList, "Indiana".toList),
   ("IA".toList, "Iowa".toList), ("KS".toList, "Kansas".toList),
   ("KY".toList, "Kentucky".toList), ("LA".toList, "Louisiana".toList),
   ("ME".toList, "Maine".toList), ("MD".toList, "Maryland".toList),
   ("MA".toList, "Massachusetts".toList), ("MI".toList, "Michigan".toList),
   ("MN".toList, "Minnesota".toList), ("MS".toList, "Mississippi".toList),
   ("MO".toList, "Missouri".toList), ("MT".toList, "Montana".toList),
   ("NE".toList, "Nebraska".toList), ("NV".toList, "Nevada".toList),
   ("NH".toList, "New Hampshire".toList), ("NJ".toList, "New Jersey".toList),
   ("NM".toList, "New Mexico".toList), ("NY".toList, "New York".toList),
   ("NC".toList, "North Carolina".toList), ("ND".toList, "North Dakota".toList),
   ("OH".toList, "Ohio".toList), ("OK".toList, "Oklahoma".toList),
   ("OR".toList, "Oregon".toList), ("PA".toList, "Pennsylvania".toList),
   ("RI".toList, "Rhode Island".toList), ("SC".toList, "South Carolina".toList),
   ("SD".toList, "South Dakota".toList), ("TN".toList, "Tennessee".toList),
   ("TX".toList, "Texas".toList), ("UT".toList, "Utah".toList),
   ("VT".toList, "Vermont".toList), ("VA".toList, "Virginia".toList),
   ("WA".toList, "Washington".toList), ("WV".toList, "West Virginia".toList),
   ("WI".toList, "Wisconsin".toList), ("WY".toList, "Wyoming".toList)]

/-- `US_STATES.get(key)` (no default). -/
def usStateLookup (ab : Str) : Option Str :=
  (US_STATES.find? (fun p => p.1 == ab)).map (fun p => p.2)

/-- `neuro_keywords` in `score_author_match`. -/
def NEURO_KEYWORDS : List Str :=
  ["neurosurg".toList, "neurology".toList, "stroke".toList, "cerebrovascular".toList,
   "neurointervent".toList, "neuroradiol".toList, "brain".toList, "aneurysm".toList]

/-- `idaho_institutions` in `score_author_match`. -/
def IDAHO_INSTITUTIONS : List Str :=
  ["st. luke".toList, "saint luke".toList, "boise".toList, "idaho".toList]

/-- Python truthiness of the affiliation argument (`if affiliation:`):
present and nonempty. -/
def affilTruthyOf (affiliation : Option Str) : Bool :=
  match affiliation with
  | some a => !a.isEmpty
  | none => false

/-- The name-matching bonuses of `score_author_match`: +20 for surname,
then either +30 (full first name) or +10 (matching first initial of the
author string's first token). -/
def nameScorePart (author_lower : Str) (target_first target_last : Str) : Int × List Str :=
  if isInfixL (lowerL target_last) author_lower then
    if isInfixL (lowerL target_first) author_lower then
      (20 + 30, ["Full name match".toList])
    else
      match splitWS author_lower with
      | tok :: _ =>
        if Char.toLower (target_first.headD ' ') == tok.headD ' ' then
          (20 + 10, ["Name initial match".toList])
        else (20, [])
      | [] => (20, [])
  else (0, [])

/-- The +25 state bonus of `score_author_match` (abbreviation or full
state name appearing in the affiliation text). -/
def stateScorePart (affilTruthy : Bool) (affil_lower : Str)
    (target_state : Option Str) : Int × List Str :=
  if affilTruthy then
    match target_state with
    | some st =>
      if !st.isEmpty then
        if isInfixL (lowerL st) affil_lower ||
            isInfixL (lowerL ((usStateLookup (upperL st)).getD [])) affil_lower then
          (25, ["State: ".toList ++ st])
        else (0, [])
      else (0, [])
    | none => (0, [])
  else (0, [])

/-- The +30 city bonus of `score_author_match`. -/
def cityScorePart (affilTruthy : Bool) (affil_lower : Str)
    (target_city : Option Str) : Int × List Str :=
  if affilTruthy then
    match target_city with
    | some ci =>
      if !ci.isEmpty && isInfixL (lowerL ci) affil_lower then
        (30, ["City: ".toList ++ ci])
      else (0, [])
    | none => (0, [])
  else (0, [])

/-- The +15 neuro-keyword bonus of `score_author_match` (awarded once). -/
def kwScorePart (affilTruthy : Bool) (affil_lower : Str) : Int × List Str :=
  if affilTruthy && NEURO_KEYWORDS.any (fun k => isInfixL k affil_lower) then
    (15, ["Neuro affiliation".toList])
  else (0, [])

/-- The +20 regional-institution bonus of `score_author_match` (awarded
once). -/
def instScorePart (affilTruthy : Bool) (affil_lower : Str) : Int × List Str :=
  if affilTruthy && IDAHO_INSTITUTIONS.any (fun i => isInfixL i affil_lower) then
    (20, ["Regional institution".toList])
  else (0, [])

/-- `score_author_match`: accumulate name, state, city, neuro-keyword and
regional-institution bonuses with their reasons. `affiliation` is `Option`
because the caller passes the possibly-absent target-author affiliation. -/
def score_author_match (author_name : Str) (affiliation : Option Str)
    (target_first target_last : Str)
    (target_city target_state _target_specialty : Option Str) : Int × List Str :=
  let author_lower := lowerL author_name
  let affil_lower := lowerL (affiliation.getD [])
  let affilTruthy := affilTruthyOf affiliation
  let namePart := nameScorePart author_lower target_first target_last
  let statePart := stateScorePart affilTruthy affil_lower target_state
  let cityPart := cityScorePart affilTruthy affil_lower target_city
  let kwPart := kwScorePart affilTruthy affil_lower
  let instPart := instScorePart affilTruthy affil_lower
  (namePart.1 + statePart.1 + cityPart.1 + kwPart.1 + instPart.1,
   namePart.2 ++ statePart.2 ++ cityPart.2 ++ kwPart.2 ++ instPart.2)

/-- One `Author` element of a fetched PubMed record; missing child
elements are `none`. -/
structure PubAuthor where
  lastName : Option Str
  foreName : Option Str
  initials : Option Str
  affiliation : Option Str
deriving DecidableEq, Repr

/-- One parsed `PubmedArticle` record. -/
structure PubArticle where
  pmid : Option Str
  title : Str
  journal : Str
  year : Option Int
  authors : List PubAuthor
deriving DecidableEq, Repr

/-- Python `s.strip()`. -/
def stripWS (s : Str) : Str :=
  ((s.dropWhile Char.isWhitespace).reverse.dropWhile Char.isWhitespace).reverse

/-- The target-author test of the detail loop.  Note the Python conditional
expression `(fore_eq or initial_eq) if author_init else False`: with an
empty or missing `Initials` element the whole inner expression is `False`. -/
def isTargetAuthor (first_name last_name : Str) (a : PubAuthor) : Bool :=
  let author_last := a.lastName.getD []
  let author_fore := a.foreName.getD []
  let author_init := a.initials.getD []
  lowerL last_name == lowerL author_last &&
    (if !author_init.isEmpty then
      lowerL first_name == lowerL author_fore ||
        Char.toUpper (first_name.headD ' ') == Char.toUpper (author_init.headD ' ')
    else false)

/-- The `target_author_affiliation` accumulation over the author list
(later matches overwrite earlier ones). -/
def targetAffilFold (first_name last_name : Str) (authors : List PubAuthor) : Option Str :=
  authors.foldl
    (fun acc a =>
      if isTargetAuthor first_name last_name a then some (a.affiliation.getD []) else acc)
    none

/-- The `f"{author_fore} {author_last}".strip()` display entry. -/
def authorDisplay (a : PubAuthor) : Str :=
  stripWS ((a.foreName.getD []) ++ ' ' :: (a.lastName.getD []))

/-- One `pub_entry` dictionary. -/
structure PubEntry where
  pmid : Option Str
  title : Str
  journal : Str
  year : Option Int
  authors : List Str
  author_count : Nat
  target_author_affiliation : Option Str
  match_score : Int
  match_reasons : List Str
  confidence : Str
deriving DecidableEq, Repr

/-- Build the `pub_entry` for one parsed article: locate the target author,
score the match, assign the confidence tier. -/
def mkPubEntry (first_name last_name : Str)
    (city state specialty : Option Str) (art : PubArticle) : PubEntry :=
  let authors_list := art.authors.map authorDisplay
  let target_affil := targetAffilFold first_name last_name art.authors
  let sm := score_author_match (first_name ++ ' ' :: last_name) target_affil
    first_name last_name city state specialty
  let confidence :=
    if 50 ≤ sm.1 then "high".toList
    else if 30 ≤ sm.1 then "medium".toList
    else "low".toList
  { pmid := art.pmid, title := art.title, journal := art.journal, year := art.year,
    authors := authors_list.take 5, author_count := authors_list.length,
    target_author_affiliation := target_affil,
    match_score := sm.1, match_reasons := sm.2, confidence := confidence }

/-- `confidence in ["high", "medium"]`. -/
def isVerifiedConf (c : Str) : Bool := c == "high".toList || c == "medium".toList

/-- `(-x["match_score"], -(x["year"] or 0))` ascending, i.e. descending
score then descending year (missing year counts as 0). -/
def pubLE (a b : PubEntry) : Bool :=
  decide (b.match_score < a.match_score) ||
    (a.match_score == b.match_score && decide (b.year.getD 0 ≤ a.year.getD 0))

/-- Query strategy 1: surname+initial AND domain keywords. -/
def kwQuery (last_name : Str) (fi : Char) : Str :=
  '"' :: (last_name ++ ' ' :: [fi]) ++
    "\"[Author] AND (stroke OR hemorrhage OR aneurysm OR neurovascular OR thrombectomy OR embolization)".toList

/-- Query strategy 2: surname+initial AND state affiliation
(`US_STATES.get(state.upper(), state)`). -/
def stateQuery (last_name : Str) (fi : Char) (st : Str) : Str :=
  '"' :: (last_name ++ ' ' :: [fi]) ++ "\"[Author] AND ".toList ++
    ((usStateLookup (upperL st)).getD st) ++ "[Affiliation]".toList

/-- Query strategy 3: surname+initial AND city affiliation. -/
def cityQuery (last_name : Str) (fi : Char) (ci : Str) : Str :=
  '"' :: (last_name ++ ' ' :: [fi]) ++ "\"[Author] AND ".toList ++
    ci ++ "[Affiliation]".toList

/-- Query strategy 4: unfiltered fallback. -/
def fallbackQuery (last_name : Str) (fi : Char) : Str :=
  last_name ++ ' ' :: fi :: "[Author]".toList

/-- The `queries` list: strategy 1, then 2 only with a state hint, then 3
only with a city hint, then the fallback. -/
def buildQueries (last_name : Str) (fi : Char) (state city : Option Str) : List Str :=
  [kwQuery last_name fi] ++
    (match state with
     | some st => if !st.isEmpty then [stateQuery last_name fi st] else []
     | none => []) ++
    (match city with
     | some ci => if !ci.isEmpty then [cityQuery last_name fi ci] else []
     | none => []) ++
    [fallbackQuery last_name fi]

/-- `all_pmids.update(pmids)`: set union, modelled as an insertion-ordered
duplicate-free list. -/
def dedupUnion (acc new : List Str) : List Str :=
  new.foldl (fun a i => if a.contains i then a else a ++ [i]) acc

/-- The strategy loop: before each strategy, stop if the accumulated ID set
already reached `maxR`; otherwise issue the search (a failed search
contributes nothing) and union the IDs.  Returns the final ID set and the
queries actually issued, in order. -/
def runQueries (es : Str → Option (List Str)) (maxR : Nat) :
    List Str → List Str → List Str × List Str
  | [], acc => (acc, [])
  | q :: qs, acc =>
    if maxR ≤ acc.length then (acc, [])
    else
      let acc' := match es q with
        | some pmids => dedupUnion acc pmids
        | none => acc
      let r := runQueries es maxR qs acc'
      (r.1, q :: r.2)

/-- The result dictionary of `fetch_pubmed_publications`. -/
structure PubResult where
  publications_found : Bool
  verified_count : Nat
  publications : List PubEntry
  unverified_publications : List PubEntry
  message : Option Str
  verification_note : Option Str
  error : Option Str
deriving DecidableEq, Repr

/-- The initial `result` dictionary of `fetch_pubmed_publications`. -/
def emptyPubResult : PubResult :=
  { publications_found := false, verified_count := 0, publications := [],
    unverified_publications := [], message := none, verification_note := none,
    error := none }

/-- `fetch_pubmed_publications`: run the query strategies, fetch details
for the accumulated IDs, build and partition the scored entries, and sort
both partitions by descending score then descending year. -/
def fetch_pubmed_publications (es : Str → Option (List Str))
    (ef : List Str → Option (List PubArticle))
    (first_name last_name : Str) (city state specialty : Option Str)
    (max_results : Nat) : PubResult × List Call :=
  if last_name.isEmpty || first_name.isEmpty then (emptyPubResult, [])
  else
    let fi := Char.toUpper (first_name.headD ' ')
    let queries := buildQueries last_name fi state city
    let run := runQueries es max_results queries []
    let all_pmids := run.1
    let searchCalls := run.2.map Call.pubmedSearch
    if all_pmids.isEmpty then
      ({ emptyPubResult with message := some "No publications found".toList }, searchCalls)
    else
      let fetched := all_pmids.take max_results
      match ef fetched with
      | none => (emptyPubResult, searchCalls ++ [Call.pubmedFetch fetched])
      | some articles =>
        let entries := articles.map (mkPubEntry first_name last_name city state specialty)
        let verified :=
          (entries.filter (fun e => isVerifiedConf e.confidence)).mergeSort pubLE
        let unverified :=
          (entries.filter (fun e => !isVerifiedConf e.confidence)).mergeSort pubLE
        let note :=
          if 0 < verified.length then
            some ("Found ".toList ++ (toString verified.length).toList ++
              " publications with location/specialty match".toList)
          else if !unverified.isEmpty then
            some "Publications found but author identity not verified - review affiliations".toList
          else none
        ({ publications_found := !verified.isEmpty || !unverified.isEmpty
           verified_count := verified.length
           publications := verified
           unverified_publications := unverified
           message := none
           verification_note := note
           error := none }, searchCalls ++ [Call.pubmedFetch fetched])

/-! ### The orchestrating pipeline (`run_dossier_pipeline`)

The education/training scrape (`fetch_education_data`) is an out-of-scope
best-effort collaborator per the specification; it is modelled as an
opaque collaborator function. -/

/-- Opaque result of the education/training collaborator. -/
structure EduResult where
  found : Bool
deriving DecidableEq, Repr

/-- The collaborator bundle consumed by the pipeline. -/
structure Collabs where
  db : CmsDb
  registry : Str → Str → Option Str → Option Str → Except Str (List NpiEntry)
  edu : Str → Str → Option Str → Option Str → Option Str → Option Str → EduResult
  esearch : Str → Option (List Str)
  efetch : List Str → Option (List PubArticle)

/-- The full pipeline result dictionary (timestamp omitted). -/
structure PipelineResult where
  physician_name : Str
  parsed_name : ParsedName
  npi_data : NpiData
  cms_data : CmsResult
  education_data : EduResult
  publications : PubResult
deriving Repr

/-- The pipeline either returns the early input-error dictionary or the
full result. -/
inductive PipelineOut where
  | err (msg : Str)
  | ok (r : PipelineResult)
deriving Repr

/-- The identity branch of the pipeline: a direct-store hit (payments
found with embedded physician info) builds `npi_data` from the embedded
fields without any further call; otherwise the registry fallback
`lookup_npi` runs. -/
def resolveIdentity (c : Collabs) (first_name last_name : Str)
    (state city : Option Str) (cms_result : CmsResult) :
    NpiData × Option Str × List Call :=
  match cms_result.payments_found, cms_result.physician_info with
  | true, some info =>
    ({ emptyNpiData with
        found := true
        npi := info.npi
        verified_name := info.name
        specialty := info.specialty
        address := some ⟨info.state, info.city⟩
        source := "CMS Database".toList }, info.npi, [])
  | true, none =>
    let l := lookup_npi c.registry first_name last_name state city
    (l.1, if l.1.found then l.1.npi else none, l.2)
  | false, _ =>
    let l := lookup_npi c.registry first_name last_name state city
    (l.1, if l.1.found then l.1.npi else none, l.2)

/-- `run_dossier_pipeline(physician_name, state, city)`: parse the name
(empty surname is a terminal input error), query the payments store by
name, build the identity from the direct-store hit or else fall back to
the registry, thread the resolved hints into the education and PubMed
steps. -/
def run_dossier_pipeline (c : Collabs) (physician_name : Str)
    (state city : Option Str) : PipelineOut × List Call :=
  let parsed := parse_physician_name physician_name
  if parsed.last.isEmpty then
    (.err "Could not parse physician name. Please enter first and last name.".toList, [])
  else
    let first_name := parsed.first
    let last_name := parsed.last
    let cmsPair := fetch_cms_payments_from_db c.db first_name last_name none
    let cms_result := cmsPair.1
    let npiBranch := resolveIdentity c first_name last_name state city cms_result
    let npi_data := npiBranch.1
    let npiVal := npiBranch.2.1
    let eduHints : Option Str × Option Str × Option Str :=
      match cms_result.physician_info with
      | some info => (info.city, info.state, info.specialty)
      | none =>
        if npi_data.found then
          match npi_data.address with
          | some a => (a.city, a.state, npi_data.specialty)
          | none => (none, none, npi_data.specialty)
        else (none, none, none)
    let eduResult := c.edu first_name last_name npiVal eduHints.1 eduHints.2.1 eduHints.2.2
    let pubHints : Option Str × Option Str × Option Str :=
      match cms_result.physician_info with
      | some info => (info.city, info.state, info.specialty)
      | none =>
        match npi_data.address with
        | some a => (a.city, a.state, npi_data.specialty)
        | none => (none, none, none)
    let pubPair := fetch_pubmed_publications c.esearch c.efetch first_name last_name
      pubHints.1 pubHints.2.1 pubHints.2.2 30
    (.ok { physician_name := physician_name, parsed_name := parsed,
           npi_data := npi_data, cms_data := cms_result,
           education_data := eduResult, publications := pubPair.1 },
     cmsPair.2 ++ npiBranch.2.2 ++ [Call.eduLookup first_name last_name] ++ pubPair.2)

/-- Is this call a registry (NPI) lookup? -/
def isNpiRegistryCall : Call → Bool
  | .npiRegistry _ _ _ _ => true
  | _ => false

/-- Is this call an identifier-filtered payments query? -/
def isCmsByNpiCall : Call → Bool
  | .cmsByNpi _ => true
  | _ => false

/-- Is this call a name-filtered payments query? -/
def isCmsByNameCall : Call → Bool
  | .cmsByName _ _ => true
  | _ => false

/-- The `npi_data` of a successful pipeline run. -/
def pipelineNpiData : PipelineOut → Option NpiData
  | .ok r => some r.npi_data
  | .err _ => none

/-- The resolved identity's external identifier, when the pipeline
succeeded and one is known. -/
def resolvedNpiOf : PipelineOut → Option Str
  | .ok r => r.npi_data.npi
  | .err _ => none

/-- The target-author rule as the specification words it (exact last-name
match AND either exact first-name match or matching first-initial); stated
only to compare the specified rule with the implemented `isTargetAuthor`. -/
def specTargetMatch (first_name last_name : Str) (a : PubAuthor) : Bool :=
  let author_last := a.lastName.getD []
  let author_fore := a.foreName.getD []
  let author_init := a.initials.getD []
  lowerL last_name == lowerL author_last &&
    (lowerL first_name == lowerL author_fore ||
      (!author_init.isEmpty &&
        Char.toUpper (first_name.headD ' ') == Char.toUpper (author_init.headD ' ')))

/-! ### Concrete demonstration fixtures used by witness theorems -/

/-- An author entry with an exact forename/surname match but no
`Initials` element. -/
def C3authorNoInit : PubAuthor :=
  ⟨some "Joyce".toList, some "Evan".toList, none, some "St. Luke Boise".toList⟩

/-- An author list containing a normally-matching entry (with initials)
and one with missing name parts. -/
def C3authors : List PubAuthor :=
  [⟨some "Joyce".toList, some "Evan".toList, some "EJ".toList,
    some "Boise Idaho".toList⟩,
   ⟨none, none, none, none⟩]

/-- A registry hit whose practice state matches the hint `"ID"`. -/
def C7entryMatch : NpiEntry :=
  ⟨some "111".toList, "Evan".toList, "Joyce".toList,
   [⟨"LOCATION".toList, "ID".toList, "Boise".toList⟩],
   [⟨"Neurological Surgery".toList, true⟩]⟩

/-- The same hit except for a non-matching practice state. -/
def C7entryOther : NpiEntry :=
  ⟨some "222".toList, "Evan".toList, "Joyce".toList,
   [⟨"LOCATION".toList, "UT".toList, "Boise".toList⟩],
   [⟨"Neurological Surgery".toList, true⟩]⟩

/-- A matching author entry used by the C5 witness. -/
def C5author : PubAuthor :=
  ⟨some "Joyce".toList, some "Evan".toList, some "E".toList, some "Boise".toList⟩

/-- A one-author article used by the C5 witness. -/
def C5article : PubArticle :=
  ⟨some "11".toList, "Title".toList, "Journal".toList, some 2021, [C5author]⟩

/-- A literature-index search stub used by the C5 witness. -/
def C5es : Str → Option (List Str) := fun _ => some ["11".toList]

/-- A literature-index fetch stub used by the C5 witness. -/
def C5ef : List Str → Option (List PubArticle) := fun _ => some [C5article]

/-- The entry list the matcher builds from the C5 fixture. -/
def C5entries : List PubEntry :=
  [C5article].map (mkPubEntry "Evan".toList "Joyce".toList none none none)

/-- The fetch result of the C5 fixture. -/
def C5res : PubResult :=
  (fetch_pubmed_publications C5es C5ef "Evan".toList "Joyce".toList none none none 30).1

/-- A one-author article used by the C10 witness. -/
def C10article : PubArticle :=
  ⟨some "12".toList, "T".toList, "J".toList, some 2021,
   [⟨some "Joyce".toList, some "Evan".toList, some "E".toList, none⟩]⟩

/-- A direct-store payments row (with embedded identity) used by the C2
witness. -/
def C2row : CmsRow :=
  ⟨some "Evan Joyce".toList, some "123".toList, some "Neurological Surgery".toList,
   some "Boise".toList, some "ID".toList, some "Penumbra".toList, some 10, some 1, 2023⟩

/-- A collaborator bundle whose payments store hits on any name, used by
the C2 witness. -/
def C2collabs : Collabs :=
  { db := ⟨true, fun _ _ => .ok [C2row], fun _ => .ok []⟩
    registry := fun _ _ _ _ => .error "registry down".toList
    edu := fun _ _ _ _ _ _ => ⟨false⟩
    esearch := fun _ => none
    efetch := fun _ => none }

/-- A direct-store payments row with a known identifier, used by the C4
counterexample. -/
def C4row : CmsRow :=
  ⟨some "Evan Joyce".toList, some "123".toList, none, none, none,
   some "Penumbra".toList, some 10, some 1, 2023⟩

/-- A collaborator bundle whose payments store knows the physician's
identifier, used by the C4 counterexample. -/
def C4collabs : Collabs :=
  { db := ⟨true, fun _ _ => .ok [C4row], fun _ => .ok []⟩
    registry := fun _ _ _ _ => .error "registry down".toList
    edu := fun _ _ _ _ _ _ => ⟨false⟩
    esearch := fun _ => none
    efetch := fun _ => none }

/-- A collaborator bundle that records any call, used by the C9 witness. -/
def C9collabs : Collabs :=
  { db := ⟨true, fun _ _ => .ok [], fun _ => .ok []⟩
    registry := fun _ _ _ _ => .ok []
    edu := fun _ _ _ _ _ _ => ⟨false⟩
    esearch := fun _ => some []
    efetch := fun _ => some [] }

/-! ## Tokenizer lemmas -/

theorem splitWSAux_tokens (s : List Char) : ∀ (acc : List Char),
    (∀ c ∈ acc, c.isWhitespace = false) →
    ∀ t ∈ splitWSAux s acc, t ≠ [] ∧ ∀ c ∈ t, c.isWhitespace = false := by
  induction s with
  | nil =>
    intro acc hacc t ht
    by_cases h : acc = []
    · subst h; simp [splitWSAux] at ht
    · simp only [splitWSAux, List.isEmpty_iff, if_neg h, List.mem_singleton] at ht
      subst ht
      exact ⟨by simpa using h, fun c hc => hacc c (List.mem_reverse.1 hc)⟩
  | cons c cs ih =>
    intro acc hacc t ht
    cases hcw : c.isWhitespace with
    | false =>
      simp only [splitWSAux, hcw, Bool.false_eq_true, if_false] at ht
      refine ih (c :: acc) ?_ t ht
      intro x hx
      rcases List.mem_cons.1 hx with rfl | h2
      · exact hcw
      · exact hacc x h2
    | true =>
      simp only [splitWSAux, hcw, if_true] at ht
      rcases List.mem_append.1 ht with h1 | h2
      · by_cases h : acc = []
        · subst h; simp at h1
        · simp only [List.isEmpty_iff, if_neg h, List.mem_singleton] at h1
          subst h1
          exact ⟨by simpa using h, fun x hx => hacc x (List.mem_reverse.1 hx)⟩
      · exact ih [] (by simp) t h2

theorem splitWS_tokens (s : Str) :
    ∀ t ∈ splitWS s, t ≠ [] ∧ ∀ c ∈ t, c.isWhitespace = false :=
  splitWSAux_tokens s [] (by simp)

theorem splitWSAux_token_append (t : List Char)
    (hws : ∀ c ∈ t, c.isWhitespace = false) :
    ∀ (cs acc : List Char), splitWSAux (t ++ cs) acc = splitWSAux cs (t.reverse ++ acc) := by
  induction t with
  | nil => intro cs acc; simp
  | cons c t ih =>
    intro cs acc
    have hc : c.isWhitespace = false := hws c (by simp)
    have ht : ∀ x ∈ t, x.isWhitespace = false := fun x hx => hws x (by simp [hx])
    have h1 : splitWSAux ((c :: t) ++ cs) acc = splitWSAux (t ++ cs) (c :: acc) := by
      simp [splitWSAux, hc]
    rw [h1, ih ht cs (c :: acc)]
    simp

theorem splitWS_joinSpace : ∀ (parts : List Str),
    (∀ t ∈ parts, t ≠ [] ∧ ∀ c ∈ t, c.isWhitespace = false) →
    splitWS (joinSpace parts) = parts := by
  intro parts
  induction parts with
  | nil => intro _; rfl
  | cons t ts ih =>
    intro h
    obtain ⟨hne, hws⟩ := h t (by simp)
    cases ts with
    | nil =>
      show splitWSAux (joinSpace [t]) [] = [t]
      have h2 := splitWSAux_token_append t hws [] []
      rw [show joinSpace [t] = t ++ [] by simp [joinSpace], h2]
      simp [splitWSAux, List.isEmpty_iff, hne]
    | cons t' ts' =>
      have hrest : ∀ x ∈ t' :: ts', x ≠ [] ∧ ∀ c ∈ x, c.isWhitespace = false :=
        fun x hx => h x (List.mem_cons_of_mem t hx)
      show splitWSAux (joinSpace (t :: t' :: ts')) [] = t :: t' :: ts'
      have h1 : joinSpace (t :: t' :: ts') = t ++ ' ' :: joinSpace (t' :: ts') := rfl
      rw [h1, splitWSAux_token_append t hws]
      simp only [List.append_nil]
      have h2 : splitWSAux (' ' :: joinSpace (t' :: ts')) t.reverse =
          (if t.reverse.isEmpty then [] else [t.reverse.reverse]) ++
            splitWS (joinSpace (t' :: ts')) := by
        simp [splitWSAux, splitWS]
      rw [h2, ih hrest]
      simp [List.isEmpty_iff, hne]

/-! ## Lemmas about the stripping loops -/

theorem dropTrailing_sublist_mem {p : Str → Bool} {l : List Str} {t : Str}
    (h : t ∈ dropTrailing p l) : t ∈ l := by
  unfold dropTrailing at h
  rw [List.mem_reverse] at h
  have h2 := (List.dropWhile_suffix (l := l.reverse) p).subset h
  exact List.mem_reverse.1 h2

theorem dropTrailing_front (p : Str → Bool) (l : List Str) : dropTrailing p l <+: l := by
  have h := List.dropWhile_suffix (l := l.reverse) p
  have h2 : (l.reverse.dropWhile p).reverse <+: l.reverse.reverse :=
    List.reverse_prefix.2 h
  simpa [dropTrailing] using h2

theorem dropTrailing_getLast?_not (p : Str → Bool) (l : List Str) {t : Str}
    (h : (dropTrailing p l).getLast? = some t) : p t = false := by
  have h2 := List.head?_dropWhile_not p l.reverse
  rw [show (dropTrailing p l).getLast? = (l.reverse.dropWhile p).head? by
    simp [dropTrailing]] at h
  rw [h] at h2
  exact h2

theorem dropTrailing_eq_self {p : Str → Bool} {l : List Str} {t : Str}
    (hl : l.getLast? = some t) (ht : p t = false) : dropTrailing p l = l := by
  have h1 : l.reverse.head? = some t := by simp [hl]
  have h2 : l.reverse.dropWhile p = l.reverse := by
    cases hrev : l.reverse with
    | nil => rfl
    | cons a r =>
      rw [hrev] at h1
      simp only [List.head?_cons, Option.some.injEq] at h1
      subst h1
      rw [List.dropWhile_cons, if_neg (by simp [ht])]
  unfold dropTrailing
  rw [h2, List.reverse_reverse]

theorem head?_eq_of_front {α : Type} {a : α} {r l₂ : List α}
    (h : (a :: r) <+: l₂) : l₂.head? = some a := by
  obtain ⟨s, hs⟩ := h
  rw [← hs]
  rfl

/-- Re-splitting the joined canonical token list and re-running the two
stripping loops and the comma truncation is the identity, provided every
token is a nonempty whitespace-free string, the head is not a title token,
and the last token is neither a credential token nor comma-bearing. -/
theorem strippedTokens_joinSpace (p2 : List Str)
    (htoks : ∀ t ∈ p2, t ≠ [] ∧ ∀ c ∈ t, c.isWhitespace = false)
    (hhead : ∀ a r, p2 = a :: r → isTitleToken a = false)
    (hlast : ∀ t, p2.getLast? = some t → isCredToken t = false) :
    strippedTokens (joinSpace p2) = p2 := by
  unfold strippedTokens
  rw [splitWS_joinSpace p2 htoks]
  cases hp2c : p2 with
  | nil => rfl
  | cons a r =>
    have h1 : (a :: r).dropWhile isTitleToken = a :: r := by
      rw [List.dropWhile_cons, if_neg (by simp [hhead a r hp2c])]
    rw [h1]
    obtain ⟨tl, htl⟩ : ∃ t, (a :: r).getLast? = some t := by
      cases hgl : (a :: r).getLast? with
      | none => rw [List.getLast?_eq_none_iff] at hgl; simp at hgl
      | some x => exact ⟨x, rfl⟩
    exact dropTrailing_eq_self htl (hlast tl (hp2c ▸ htl))

/-- Comma truncation is a no-op when the final token has no comma. -/
theorem truncLastAtComma_eq_self {l : List Str}
    (h : (l.getLastD []).contains ',' = false) : truncLastAtComma l = l := by
  unfold truncLastAtComma
  split
  · rfl
  · next t hg =>
    have heq : l.getLastD [] = t := by rw [List.getLastD_eq_getLast?, hg]; rfl
    rw [heq] at h
    rw [if_neg (by simpa using h)]

/-! ## C6: idempotence of name normalization -/

/-- C6 counterexample: for the input `"John MD,x"` the code truncates the
trailing token at the comma to `MD`, and re-normalizing the produced
`full` field (`"John MD"`) then strips `MD` as a credential suffix, so
normalization is not idempotent. -/
theorem C6_counterexample :
    parse_physician_name (parse_physician_name "John MD,x".toList).full ≠
      parse_physician_name "John MD,x".toList := by decide

/-- C6 (amended): name normalization is idempotent for every input whose
final retained token (after the title/credential stripping loops) contains
no comma — the comma-truncation step is then a no-op, and re-normalizing
the `full` field reproduces the same first/last/full triple.  (The
unrestricted claim fails: truncating the final token at a comma can
produce a credential token that the second pass strips.) -/
theorem C6_parse_idempotent_amended (s : Str)
    (h : ((strippedTokens s).getLastD []).contains ',' = false) :
    parse_physician_name (parse_physician_name s).full = parse_physician_name s := by
  by_cases hs : s = []
  · subst hs; rfl
  · have htrunc : truncLastAtComma (strippedTokens s) = strippedTokens s :=
      truncLastAtComma_eq_self h
    have hps : parse_physician_name s =
        (if (strippedTokens s).length < 2 then
          ParsedName.mk ((strippedTokens s).headD []) [] (joinSpace (strippedTokens s))
        else
          ParsedName.mk ((strippedTokens s).headD []) ((strippedTokens s).getLastD [])
            (joinSpace (strippedTokens s))) := by
      unfold parse_physician_name
      rw [if_neg hs, htrunc]
    have htoks : ∀ t ∈ strippedTokens s, t ≠ [] ∧ ∀ c ∈ t, c.isWhitespace = false := by
      intro t ht
      have h1 : t ∈ (splitWS s).dropWhile isTitleToken := dropTrailing_sublist_mem ht
      have h2 : t ∈ splitWS s :=
        (List.dropWhile_suffix (l := splitWS s) isTitleToken).subset h1
      exact splitWS_tokens s t h2
    cases hp2c : strippedTokens s with
    | nil =>
      rw [hps, hp2c]
      rfl
    | cons a rest =>
      have ha : a ≠ [] := (htoks a (by rw [hp2c]; simp)).1
      have hfull_ne : joinSpace (strippedTokens s) ≠ [] := by
        rw [hp2c]
        cases rest with
        | nil => simpa [joinSpace] using ha
        | cons b rs => simp [joinSpace, ha]
      have hsplit : splitWS (joinSpace (strippedTokens s)) = strippedTokens s :=
        splitWS_joinSpace _ htoks
      have hhead : isTitleToken a = false := by
        have hpre : strippedTokens s <+: (splitWS s).dropWhile isTitleToken :=
          dropTrailing_front _ _
        rw [hp2c] at hpre
        have hh := head?_eq_of_front hpre
        have h3 := List.head?_dropWhile_not isTitleToken (splitWS s)
        rw [hh] at h3
        exact h3
      obtain ⟨tl, htl⟩ : ∃ t, (strippedTokens s).getLast? = some t := by
        rw [hp2c]
        cases hgl : (a :: rest).getLast? with
        | none => rw [List.getLast?_eq_none_iff] at hgl; simp at hgl
        | some x => exact ⟨x, rfl⟩
      have hcred : isCredToken tl = false := dropTrailing_getLast?_not isCredToken _ htl
      have key : truncLastAtComma (strippedTokens (joinSpace (strippedTokens s))) =
          strippedTokens s := by
        rw [strippedTokens_joinSpace (strippedTokens s) htoks
          (fun a' r' h' => by
            rw [hp2c] at h'
            injection h' with h1 h2
            rw [← h1]
            exact hhead)
          (fun t' h' => by rw [htl] at h'; injection h' with h1; rw [← h1]; exact hcred)]
        exact htrunc
      have hfull : parse_physician_name (joinSpace (strippedTokens s)) =
          (if (strippedTokens s).length < 2 then
            ParsedName.mk ((strippedTokens s).headD []) [] (joinSpace (strippedTokens s))
          else
            ParsedName.mk ((strippedTokens s).headD []) ((strippedTokens s).getLastD [])
              (joinSpace (strippedTokens s))) := by
        unfold parse_physician_name
        rw [if_neg hfull_ne]
        rw [show strippedTokens (joinSpace (strippedTokens s)) =
          strippedTokens (joinSpace (strippedTokens s)) from rfl]
        rw [key]
      have hfull_eq : (parse_physician_name s).full = joinSpace (strippedTokens s) := by
        rw [hps]
        split <;> rfl
      rw [hfull_eq, hfull, hps]

/-- C6 witness: the amended idempotence theorem applied at the concrete
input `"Dr. Sarah Chen MD"`. -/
theorem C6_witness :
    ((strippedTokens "Dr. Sarah Chen MD".toList).getLastD []).contains ',' = false ∧
      parse_physician_name (parse_physician_name "Dr. Sarah Chen MD".toList).full =
        parse_physician_name "Dr. Sarah Chen MD".toList :=
  ⟨by decide, C6_parse_idempotent_amended _ (by decide)⟩

/-! ## C1: conservation of the payment aggregation -/

theorem bumpCompany_sum (comp : Str) (amount : ℚ) (cnt : Int) :
    ∀ (l : List CompanyTotal),
      ((bumpCompany comp amount cnt l).map (fun e => e.total_amount)).sum =
        (l.map (fun e => e.total_amount)).sum + amount := by
  intro l
  induction l with
  | nil => simp [bumpCompany]
  | cons e es ih =>
    unfold bumpCompany
    cases hc : e.competitor == comp with
    | true => simp [hc]; ring
    | false => simp [hc, ih]; ring

theorem bumpCompany_jnj (comp : Str) (amount : ℚ) (cnt : Int) :
    ∀ (l : List CompanyTotal),
      (∀ e ∈ l, e.is_jnj = (e.competitor == JNJ)) →
      ∀ e ∈ bumpCompany comp amount cnt l, e.is_jnj = (e.competitor == JNJ) := by
  intro l
  induction l with
  | nil =>
    intro _ e he
    simp [bumpCompany] at he
    subst he
    rfl
  | cons x xs ih =>
    intro hl e he
    unfold bumpCompany at he
    cases hc : x.competitor == comp with
    | true =>
      rw [hc] at he
      simp only [if_true] at he
      rcases List.mem_cons.1 he with rfl | h2
      · exact hl x (by simp)
      · exact hl e (by simp [h2])
    | false =>
      rw [hc] at he
      simp only [Bool.false_eq_true, if_false] at he
      rcases List.mem_cons.1 he with rfl | h2
      · exact hl e (by simp)
      · exact ih (fun y hy => hl y (by simp [hy])) e h2

theorem companyTotals_sum_aux : ∀ (rows : List CmsRow) (init : List CompanyTotal),
    ((rows.foldl (fun acc r => bumpCompany (rowCompany r) (rowAmount r) (rowCount r) acc)
        init).map (fun e => e.total_amount)).sum =
      (init.map (fun e => e.total_amount)).sum + (rows.map rowAmount).sum := by
  intro rows
  induction rows with
  | nil => intro init; simp
  | cons r rs ih =>
    intro init
    simp only [List.foldl_cons, List.map_cons, List.sum_cons]
    rw [ih (bumpCompany (rowCompany r) (rowAmount r) (rowCount r) init)]
    rw [bumpCompany_sum]
    ring

theorem companyTotals_sum (rows : List CmsRow) :
    ((companyTotals rows).map (fun e => e.total_amount)).sum = (rows.map rowAmount).sum := by
  have h := companyTotals_sum_aux rows []
  simpa [companyTotals] using h

theorem companyTotals_jnj (rows : List CmsRow) :
    ∀ e ∈ companyTotals rows, e.is_jnj = (e.competitor == JNJ) := by
  unfold companyTotals
  generalize hinit : ([] : List CompanyTotal) = init
  have hbase : ∀ e ∈ init, e.is_jnj = (e.competitor == JNJ) := by
    rw [← hinit]; intro e he; simp at he
  clear hinit
  induction rows generalizing init with
  | nil => simpa using hbase
  | cons r rs ih =>
    simp only [List.foldl_cons]
    exact ih _ (bumpCompany_jnj _ _ _ _ hbase)

theorem totalsOf_aux : ∀ (l : List CompanyTotal) (init : ℚ × ℚ),
    l.foldl
      (fun p e =>
        if e.is_jnj then (p.1, p.2 + e.total_amount) else (p.1 + e.total_amount, p.2))
      init =
      (init.1 + ((l.filter (fun e => !e.is_jnj)).map (fun e => e.total_amount)).sum,
       init.2 + ((l.filter (fun e => e.is_jnj)).map (fun e => e.total_amount)).sum) := by
  intro l
  induction l with
  | nil => intro init; simp
  | cons e es ih =>
    intro init
    cases hj : e.is_jnj with
    | true =>
      simp only [List.foldl_cons, hj, if_true, List.filter_cons, Bool.not_true,
        Bool.false_eq_true, if_false, if_true, List.map_cons, List.sum_cons]
      rw [ih]
      simp [add_assoc]
    | false =>
      simp only [List.foldl_cons, hj, Bool.false_eq_true, if_false, List.filter_cons,
        Bool.not_false, if_true, List.map_cons, List.sum_cons]
      rw [ih]
      simp [add_assoc]

theorem totalsOf_eq (l : List CompanyTotal) :
    totalsOf l = (((l.filter (fun e => !e.is_jnj)).map (fun e => e.total_amount)).sum,
                  ((l.filter (fun e => e.is_jnj)).map (fun e => e.total_amount)).sum) := by
  have h := totalsOf_aux l (0, 0)
  simpa [totalsOf] using h

theorem sum_filter_split (l : List CompanyTotal) :
    ((l.filter (fun e => !e.is_jnj)).map (fun e => e.total_amount)).sum +
      ((l.filter (fun e => e.is_jnj)).map (fun e => e.total_amount)).sum =
      (l.map (fun e => e.total_amount)).sum := by
  induction l with
  | nil => simp
  | cons e es ih =>
    cases hj : e.is_jnj with
    | true =>
      simp only [List.filter_cons, hj, Bool.not_true, Bool.false_eq_true, if_false, if_true,
        List.map_cons, List.sum_cons]
      linarith [ih]
    | false =>
      simp only [List.filter_cons, hj, Bool.not_false, Bool.false_eq_true, if_false, if_true,
        List.map_cons, List.sum_cons]
      linarith [ih]

/-- C1: for every row set returned by the payments collaborator, the two
scalar totals of `fetch_cms_payments_from_db` satisfy conservation — their
sum equals the sum of all line-item amounts — and the competitor total is
exactly the sum over the aggregated groups whose organization is not the
designated `"J&J/Cerenovus"`, so the designated total is never mixed into
it. -/
theorem C1_payment_conservation (db : CmsDb) (first_name last_name : Str)
    (rows : List CmsRow) (havail : db.available = true)
    (hq : db.byName first_name last_name = .ok rows) :
    (fetch_cms_payments_from_db db first_name last_name none).1.total_competitor_amount +
        (fetch_cms_payments_from_db db first_name last_name none).1.total_jnj_amount =
      (rows.map rowAmount).sum ∧
    (fetch_cms_payments_from_db db first_name last_name none).1.total_competitor_amount =
      (((companyTotals rows).filter (fun e => !(e.competitor == JNJ))).map
        (fun e => e.total_amount)).sum := by
  have hres : (fetch_cms_payments_from_db db first_name last_name none).1 =
      aggregateCms rows := by
    unfold fetch_cms_payments_from_db
    rw [havail, hq]
    rfl
  rw [hres]
  have hfilt : (companyTotals rows).filter (fun e => !e.is_jnj) =
      (companyTotals rows).filter (fun e => !(e.competitor == JNJ)) :=
    List.filter_congr (fun e he => by rw [companyTotals_jnj rows e he])
  cases hrows : rows with
  | nil =>
    constructor
    · simp [aggregateCms, emptyCmsResult]
    · simp [aggregateCms, emptyCmsResult, companyTotals]
  | cons r rs =>
    have hagg : aggregateCms (r :: rs) =
        { payments_found := true
          total_competitor_amount := (totalsOf (companyTotals (r :: rs))).1
          total_jnj_amount := (totalsOf (companyTotals (r :: rs))).2
          relationships := (companyTotals (r :: rs)).mergeSort relLE
          physician_info := some ⟨r.name, r.npi, r.specialty, r.city, r.state⟩
          error := none } := rfl
    rw [hagg]
    rw [hrows] at hfilt
    constructor
    · show (totalsOf (companyTotals (r :: rs))).1 + (totalsOf (companyTotals (r :: rs))).2 =
        ((r :: rs).map rowAmount).sum
      rw [totalsOf_eq]
      rw [← companyTotals_sum (r :: rs)]
      exact sum_filter_split (companyTotals (r :: rs))
    · show (totalsOf (companyTotals (r :: rs))).1 = _
      rw [totalsOf_eq]
      simp only
      rw [hfilt]

/-- C1 witness: conservation at a concrete two-company row set (one
Penumbra row, one designated J&J/Cerenovus row). -/
theorem C1_witness :
    (fetch_cms_payments_from_db
        ⟨true,
         fun _ _ => .ok
           [⟨some "Evan Joyce".toList, some "123".toList, none, none, none,
             some "Penumbra".toList, some 10, some 2, 2023⟩,
            ⟨some "Evan Joyce".toList, some "123".toList, none, none, none,
             some "J&J/Cerenovus".toList, some 5, some 1, 2023⟩],
         fun _ => .ok []⟩
        "Evan".toList "Joyce".toList none).1.total_competitor_amount +
      (fetch_cms_payments_from_db
        ⟨true,
         fun _ _ => .ok
           [⟨some "Evan Joyce".toList, some "123".toList, none, none, none,
             some "Penumbra".toList, some 10, some 2, 2023⟩,
            ⟨some "Evan Joyce".toList, some "123".toList, none, none, none,
             some "J&J/Cerenovus".toList, some 5, some 1, 2023⟩],
         fun _ => .ok []⟩
        "Evan".toList "Joyce".toList none).1.total_jnj_amount =
      (([⟨some "Evan Joyce".toList, some "123".toList, none, none, none,
          some "Penumbra".toList, some 10, some 2, 2023⟩,
         ⟨some "Evan Joyce".toList, some "123".toList, none, none, none,
          some "J&J/Cerenovus".toList, some 5, some 1, 2023⟩] : List CmsRow).map
        rowAmount).sum :=
  (C1_payment_conservation _ _ _ _ rfl rfl).1

/-! ## C7: state-hint dominance in registry candidate scoring -/

theorem scoredGE_trans (a b c : ScoredMatch) :
    scoredGE a b → scoredGE b c → scoredGE a c := by
  simp only [scoredGE, decide_eq_true_eq]
  omega

theorem scoredGE_total (a b : ScoredMatch) : scoredGE a b || scoredGE b a := by
  simp only [scoredGE, Bool.or_eq_true, decide_eq_true_eq]
  omega

/-- C7: a registry candidate whose practice state matches the supplied
state hint (case-insensitively) scores exactly 50 more than an
otherwise-identical candidate (same practice city, same primary specialty)
whose state does not match, and after the descending stable sort used by
`lookup_npi` every occurrence of the state-matching candidate's record is
ranked strictly above every occurrence of the other's. -/
theorem C7_state_hint_dominance (stateHint : Str) (cityHint : Option Str)
    (eA eB : NpiEntry) (hst : stateHint ≠ [])
    (hA : upperL (practiceAddr eA).state = upperL stateHint)
    (hB : upperL (practiceAddr eB).state ≠ upperL stateHint)
    (hcity : (practiceAddr eA).city = (practiceAddr eB).city)
    (hspec : primarySpecialty eA = primarySpecialty eB) :
    npiScore (some stateHint) cityHint eA = npiScore (some stateHint) cityHint eB + 50 ∧
      ∀ (l : List ScoredMatch) (i j : Nat),
        (l.mergeSort scoredGE)[i]? = some (mkScored (some stateHint) cityHint eA) →
        (l.mergeSort scoredGE)[j]? = some (mkScored (some stateHint) cityHint eB) →
        i < j := by
  have hsb : stateHint.isEmpty = false := by
    cases stateHint with
    | nil => exact absurd rfl hst
    | cons a l => rfl
  have hAb : (upperL (practiceAddr eA).state == upperL stateHint) = true :=
    beq_iff_eq.2 hA
  have hBb : (upperL (practiceAddr eB).state == upperL stateHint) = false := by
    simpa using hB
  have hscore : npiScore (some stateHint) cityHint eA =
      npiScore (some stateHint) cityHint eB + 50 := by
    simp only [npiScore, hsb, hAb, hBb, hcity, hspec, Bool.not_false, Bool.true_and,
      Bool.and_false, Bool.and_true, if_true, Bool.false_eq_true, if_false]
    ring
  refine ⟨hscore, ?_⟩
  intro l i j hgi hgj
  obtain ⟨hi, hgeti⟩ := List.getElem?_eq_some_iff.1 hgi
  obtain ⟨hj, hgetj⟩ := List.getElem?_eq_some_iff.1 hgj
  have hsorted := List.sorted_mergeSort scoredGE_trans scoredGE_total l
  by_contra hij
  push_neg at hij
  rcases Nat.lt_or_ge j i with hlt | hge
  · have hp := List.pairwise_iff_get.1 hsorted ⟨j, hj⟩ ⟨i, hi⟩ hlt
    simp only [List.get_eq_getElem] at hp
    rw [hgeti, hgetj] at hp
    simp only [scoredGE, mkScored, decide_eq_true_eq] at hp
    omega
  · have hji : i = j := Nat.le_antisymm hge hij
    subst hji
    have hee : mkScored (some stateHint) cityHint eA =
        mkScored (some stateHint) cityHint eB := hgeti.symm.trans hgetj
    have hs2 := congrArg ScoredMatch.score hee
    simp only [mkScored] at hs2
    omega

/-- `mergeSort` on a two-element list. -/
theorem mergeSort_pair {α : Type} (le : α → α → Bool) (a b : α) :
    [a, b].mergeSort le = if le a b then [a, b] else [b, a] := by
  rw [List.mergeSort]
  simp [List.splitInTwo, List.merge]

/-- C7 witness: the dominance theorem at two concrete registry hits and a
concrete two-element candidate list sorted by `mergeSort scoredGE`: the
non-matching candidate listed first ends up ranked below the matching
one. -/
theorem C7_witness :
    npiScore (some "ID".toList) none C7entryMatch =
        npiScore (some "ID".toList) none C7entryOther + 50 ∧ (0 : Nat) < 1 := by
  have hsortEq : [mkScored (some "ID".toList) none C7entryOther,
        mkScored (some "ID".toList) none C7entryMatch].mergeSort scoredGE =
      [mkScored (some "ID".toList) none C7entryMatch,
       mkScored (some "ID".toList) none C7entryOther] := by
    rw [mergeSort_pair]
    rw [if_neg (by decide)]
  refine ⟨(C7_state_hint_dominance "ID".toList none C7entryMatch C7entryOther (by decide)
      (by decide) (by decide) (by decide) (by decide)).1, ?_⟩
  exact (C7_state_hint_dominance "ID".toList none C7entryMatch C7entryOther (by decide)
      (by decide) (by decide) (by decide) (by decide)).2
    [mkScored (some "ID".toList) none C7entryOther,
     mkScored (some "ID".toList) none C7entryMatch] 0 1
    (by rw [hsortEq]; rfl) (by rw [hsortEq]; rfl)

/-! ## C3: the target-author matching rule -/

theorem getLast?_cons_eq {α : Type} (a : α) (l : List α) :
    (a :: l).getLast? = some (l.getLastD a) := by
  induction l generalizing a with
  | nil => rfl
  | cons b t ih =>
    rw [List.getLast?_cons_cons, List.getLastD_cons]
    exact ih b

theorem targetAffilFold_aux (first_name last_name : Str) :
    ∀ (authors : List PubAuthor) (init : Option Str),
      authors.foldl
        (fun acc a =>
          if isTargetAuthor first_name last_name a then some (a.affiliation.getD [])
          else acc)
        init =
      (match (authors.filter (isTargetAuthor first_name last_name)).getLast? with
       | some a => some (a.affiliation.getD [])
       | none => init) := by
  intro authors
  induction authors with
  | nil => intro init; rfl
  | cons a rest ih =>
    intro init
    simp only [List.foldl_cons, List.filter_cons]
    cases hp : isTargetAuthor first_name last_name a with
    | false =>
      simp only [Bool.false_eq_true, if_false]
      exact ih init
    | true =>
      simp only [if_true]
      rw [ih (some (a.affiliation.getD [])), getLast?_cons_eq]
      cases hg : (rest.filter (isTargetAuthor first_name last_name)).getLast? with
      | none => simp [hg, List.getLastD_eq_getLast?]
      | some x => simp [hg, List.getLastD_eq_getLast?]

/-- C3 counterexample: an author entry whose forename and surname both
exactly equal the target's but whose `Initials` element is absent
satisfies the specified matching rule, yet the implemented check treats it
as a non-match (the Python conditional `(fore_eq or init_eq) if
author_init else False` evaluates to `False`), so the recorded
`targetAuthorAffiliation` is null instead of that author's affiliation. -/
theorem C3_counterexample :
    specTargetMatch "Evan".toList "Joyce".toList C3authorNoInit = true ∧
      targetAffilFold "Evan".toList "Joyce".toList [C3authorNoInit] = none ∧
      (mkPubEntry "Evan".toList "Joyce".toList none none none
        ⟨some "1".toList, "T".toList, "J".toList, some 2023,
         [C3authorNoInit]⟩).target_author_affiliation = none := by
  refine ⟨by decide, by decide, ?_⟩
  decide

/-- C3 (amended): the recorded `targetAuthorAffiliation` is the
affiliation string of the LAST author entry satisfying the implemented
rule — last name equal (case-insensitive) AND the `Initials` field present
and nonempty AND (exact first-name match OR first-initial match) — and is
null when no entry qualifies; an author entry with a missing or empty
`Initials` field is always a non-match (treated as such, never an
error). -/
theorem C3_target_author_amended (first_name last_name : Str)
    (authors : List PubAuthor) :
    targetAffilFold first_name last_name authors =
      ((authors.filter (isTargetAuthor first_name last_name)).getLast?).map
        (fun a => a.affiliation.getD []) ∧
      ∀ a : PubAuthor, a.initials = none ∨ a.initials = some [] →
        isTargetAuthor first_name last_name a = false := by
  constructor
  · rw [targetAffilFold, targetAffilFold_aux]
    cases hg : (authors.filter (isTargetAuthor first_name last_name)).getLast? with
    | none => rfl
    | some x => rfl
  · intro a ha
    rcases ha with h | h <;> simp [isTargetAuthor, h]

/-- C3 witness: the amended target-author rule evaluated at a concrete
author list (one matching entry with initials, one entry with all name
parts missing). -/
theorem C3_witness :
    targetAffilFold "Evan".toList "Joyce".toList C3authors =
        ((C3authors.filter (isTargetAuthor "Evan".toList "Joyce".toList)).getLast?).map
          (fun a => a.affiliation.getD []) ∧
      isTargetAuthor "Evan".toList "Joyce".toList ⟨none, none, none, none⟩ = false :=
  ⟨(C3_target_author_amended "Evan".toList "Joyce".toList C3authors).1,
   (C3_target_author_amended "Evan".toList "Joyce".toList C3authors).2
     ⟨none, none, none, none⟩ (Or.inl rfl)⟩

/-! ## Lemmas about publication scoring and tiering -/

theorem isInfixL_of_infix {needle hay : Str} (h : needle <:+: hay) :
    isInfixL needle hay = true := by
  induction hay with
  | nil =>
    have hn : needle = [] := List.infix_nil.1 h
    simp [isInfixL, hn]
  | cons c cs ih =>
    obtain ⟨s, t, hst⟩ := h
    cases s with
    | nil =>
      have hpre : needle <+: c :: cs := ⟨t, by simpa using hst⟩
      unfold isInfixL
      simp [List.isPrefixOf_iff_prefix, hpre]
    | cons x s2 =>
      simp only [List.cons_append, List.cons.injEq] at hst
      have hinf : needle <:+: cs := ⟨s2, t, hst.2⟩
      unfold isInfixL
      simp [ih hinf]

theorem nameScorePart_self (target_first target_last : Str)
    (hf : target_first ≠ []) (hl : target_last ≠ []) :
    (nameScorePart (lowerL (target_first ++ ' ' :: target_last))
      target_first target_last).1 = 50 := by
  have hdist : lowerL (target_first ++ ' ' :: target_last) =
      lowerL target_first ++ ' ' :: lowerL target_last := by
    simp [lowerL]
  have h1 : isInfixL (lowerL target_last)
      (lowerL (target_first ++ ' ' :: target_last)) = true := by
    apply isInfixL_of_infix
    rw [hdist]
    exact ⟨lowerL target_first ++ [' '], [], by simp⟩
  have h2 : isInfixL (lowerL target_first)
      (lowerL (target_first ++ ' ' :: target_last)) = true := by
    apply isInfixL_of_infix
    rw [hdist]
    exact ⟨[], ' ' :: lowerL target_last, by simp⟩
  unfold nameScorePart
  rw [h1, h2]
  simp

theorem nameScorePart_nonneg (al : Str) (f l : Str) : 0 ≤ (nameScorePart al f l).1 := by
  unfold nameScorePart
  repeat' split
  all_goals norm_num

theorem stateScorePart_nonneg (b : Bool) (al : Str) (st : Option Str) :
    0 ≤ (stateScorePart b al st).1 := by
  unfold stateScorePart
  repeat' split
  all_goals norm_num

theorem cityScorePart_nonneg (b : Bool) (al : Str) (ci : Option Str) :
    0 ≤ (cityScorePart b al ci).1 := by
  unfold cityScorePart
  repeat' split
  all_goals norm_num

theorem kwScorePart_nonneg (b : Bool) (al : Str) : 0 ≤ (kwScorePart b al).1 := by
  unfold kwScorePart
  split
  all_goals norm_num

theorem instScorePart_nonneg (b : Bool) (al : Str) : 0 ≤ (instScorePart b al).1 := by
  unfold instScorePart
  split
  all_goals norm_num

theorem score_author_match_fst (author_name : Str) (affiliation : Option Str)
    (target_first target_last : Str) (tc ts tsp : Option Str) :
    (score_author_match author_name affiliation target_first target_last tc ts tsp).1 =
      (nameScorePart (lowerL author_name) target_first target_last).1 +
        (stateScorePart (affilTruthyOf affiliation) (lowerL (affiliation.getD [])) ts).1 +
        (cityScorePart (affilTruthyOf affiliation) (lowerL (affiliation.getD [])) tc).1 +
        (kwScorePart (affilTruthyOf affiliation) (lowerL (affiliation.getD []))).1 +
        (instScorePart (affilTruthyOf affiliation) (lowerL (affiliation.getD []))).1 := rfl

/-- The matcher invokes `score_author_match` with the target's own
`f"{first} {last}"` as the compared author string, so the surname and
full-first-name bonuses are always awarded and the score is at least 50
for every affiliation value. -/
theorem score_author_match_self (first_name last_name : Str)
    (hf : first_name ≠ []) (hl : last_name ≠ [])
    (affil city state spec : Option Str) :
    50 ≤ (score_author_match (first_name ++ ' ' :: last_name) affil first_name last_name
      city state spec).1 := by
  rw [score_author_match_fst]
  have h0 := nameScorePart_self first_name last_name hf hl
  have h1 := stateScorePart_nonneg (affilTruthyOf affil) (lowerL (affil.getD [])) state
  have h2 := cityScorePart_nonneg (affilTruthyOf affil) (lowerL (affil.getD [])) city
  have h3 := kwScorePart_nonneg (affilTruthyOf affil) (lowerL (affil.getD []))
  have h4 := instScorePart_nonneg (affilTruthyOf affil) (lowerL (affil.getD []))
  omega

theorem mkPubEntry_score (first_name last_name : Str) (c s sp : Option Str)
    (art : PubArticle) :
    (mkPubEntry first_name last_name c s sp art).match_score =
      (score_author_match (first_name ++ ' ' :: last_name)
        (targetAffilFold first_name last_name art.authors)
        first_name last_name c s sp).1 := rfl

theorem mkPubEntry_conf (first_name last_name : Str) (c s sp : Option Str)
    (art : PubArticle) :
    (mkPubEntry first_name last_name c s sp art).confidence =
      (if 50 ≤ (mkPubEntry first_name last_name c s sp art).match_score
       then "high".toList
       else if 30 ≤ (mkPubEntry first_name last_name c s sp art).match_score
       then "medium".toList
       else "low".toList) := rfl

theorem pubLE_trans (a b c : PubEntry) : pubLE a b → pubLE b c → pubLE a c := by
  simp only [pubLE, Bool.or_eq_true, Bool.and_eq_true, decide_eq_true_eq, beq_iff_eq]
  omega

theorem pubLE_total (a b : PubEntry) : pubLE a b || pubLE b a := by
  simp only [pubLE, Bool.or_eq_true, Bool.and_eq_true, decide_eq_true_eq, beq_iff_eq]
  omega

/-! ## C10: the self-comparison makes author verification vacuous -/

/-- C10: because `fetch_pubmed_publications` passes the target's own
`f"{first_name} {last_name}"` as the compared author string, every
processed publication record scores at least 50 (surname +20 and full
first-name +30 bonuses are always awarded) and is tiered "high";
consequently the `unverified_publications` list of every fetch result is
empty. -/
theorem C10_self_match_vacuous (es : Str → Option (List Str))
    (ef : List Str → Option (List PubArticle))
    (first_name last_name : Str) (city state specialty : Option Str)
    (max_results : Nat) (hf : first_name ≠ []) (hl : last_name ≠ []) :
    (∀ art : PubArticle,
      50 ≤ (mkPubEntry first_name last_name city state specialty art).match_score ∧
      (mkPubEntry first_name last_name city state specialty art).confidence =
        "high".toList) ∧
    (fetch_pubmed_publications es ef first_name last_name city state specialty
      max_results).1.unverified_publications = [] := by
  have hart : ∀ art : PubArticle,
      50 ≤ (mkPubEntry first_name last_name city state specialty art).match_score ∧
      (mkPubEntry first_name last_name city state specialty art).confidence =
        "high".toList := by
    intro art
    have hsc := score_author_match_self first_name last_name hf hl
      (targetAffilFold first_name last_name art.authors) city state specialty
    refine ⟨by rw [mkPubEntry_score]; exact hsc, ?_⟩
    rw [mkPubEntry_conf, if_pos]
    rw [mkPubEntry_score]
    exact hsc
  refine ⟨hart, ?_⟩
  by_cases hguard : (last_name.isEmpty || first_name.isEmpty) = true
  · unfold fetch_pubmed_publications
    rw [if_pos hguard]
    rfl
  · unfold fetch_pubmed_publications
    rw [if_neg hguard]
    dsimp only
    by_cases hpm : ((runQueries es max_results
        (buildQueries last_name (Char.toUpper (first_name.headD ' ')) state city)
        []).1).isEmpty = true
    · rw [if_pos hpm]
      rfl
    · rw [if_neg hpm]
      cases hef : ef (((runQueries es max_results
          (buildQueries last_name (Char.toUpper (first_name.headD ' ')) state city)
          []).1).take max_results) with
      | none => rfl
      | some articles =>
        dsimp only
        have hfilter : (articles.map
            (mkPubEntry first_name last_name city state specialty)).filter
            (fun e => !isVerifiedConf e.confidence) = [] := by
          rw [List.filter_eq_nil_iff]
          intro e he
          obtain ⟨art, hart2, hme⟩ := List.mem_map.1 he
          have hc := (hart art).2
          rw [← hme]
          simp [isVerifiedConf, hc]
        rw [hfilter]
        exact List.mergeSort_nil

/-- C10 witness: the vacuous-verification theorem at concrete names and a
concrete one-article collaborator. -/
theorem C10_witness :
    (∀ art : PubArticle,
      50 ≤ (mkPubEntry "Evan".toList "Joyce".toList none none none art).match_score ∧
      (mkPubEntry "Evan".toList "Joyce".toList none none none art).confidence =
        "high".toList) ∧
    (fetch_pubmed_publications (fun _ => some ["12".toList])
      (fun _ => some [C10article])
      "Evan".toList "Joyce".toList none none none 30).1.unverified_publications = [] :=
  C10_self_match_vacuous (fun _ => some ["12".toList]) (fun _ => some [C10article])
    "Evan".toList "Joyce".toList none none none 30 (by decide) (by decide)

/-! ## C5: confidence tiering, partition and ordering -/

/-- C5: on the articles-fetched path, each publication is tiered
HIGH iff its score is at least 50, MEDIUM iff the score is in `[30, 50)`,
LOW iff below 30; the verified list collects exactly the HIGH and MEDIUM
entries and the unverified list exactly the LOW entries (their
concatenation is a permutation of all processed entries — nothing is
discarded), and both lists are sorted by descending score then descending
year. -/
theorem C5_tiering_partition_order (es : Str → Option (List Str))
    (ef : List Str → Option (List PubArticle))
    (first_name last_name : Str) (city state specialty : Option Str)
    (max_results : Nat) (pmids : List Str) (articles : List PubArticle)
    (hf : first_name ≠ []) (hl : last_name ≠ [])
    (hrun : (runQueries es max_results
      (buildQueries last_name (Char.toUpper (first_name.headD ' ')) state city) []).1 =
      pmids)
    (hne : pmids ≠ [])
    (hef : ef (pmids.take max_results) = some articles) :
    (∀ e ∈ articles.map (mkPubEntry first_name last_name city state specialty),
      (e.confidence = "high".toList ↔ 50 ≤ e.match_score) ∧
      (e.confidence = "medium".toList ↔ 30 ≤ e.match_score ∧ e.match_score < 50) ∧
      (e.confidence = "low".toList ↔ e.match_score < 30)) ∧
    (fetch_pubmed_publications es ef first_name last_name city state specialty
        max_results).1.publications.Perm
      ((articles.map (mkPubEntry first_name last_name city state specialty)).filter
        (fun e => isVerifiedConf e.confidence)) ∧
    (fetch_pubmed_publications es ef first_name last_name city state specialty
        max_results).1.unverified_publications.Perm
      ((articles.map (mkPubEntry first_name last_name city state specialty)).filter
        (fun e => !isVerifiedConf e.confidence)) ∧
    ((fetch_pubmed_publications es ef first_name last_name city state specialty
        max_results).1.publications ++
      (fetch_pubmed_publications es ef first_name last_name city state specialty
        max_results).1.unverified_publications).Perm
      (articles.map (mkPubEntry first_name last_name city state specialty)) ∧
    (∀ e, e ∈ (fetch_pubmed_publications es ef first_name last_name city state specialty
        max_results).1.publications ↔
      e ∈ articles.map (mkPubEntry first_name last_name city state specialty) ∧
        (e.confidence = "high".toList ∨ e.confidence = "medium".toList)) ∧
    (∀ e, e ∈ (fetch_pubmed_publications es ef first_name last_name city state specialty
        max_results).1.unverified_publications ↔
      e ∈ articles.map (mkPubEntry first_name last_name city state specialty) ∧
        e.confidence = "low".toList) ∧
    (fetch_pubmed_publications es ef first_name last_name city state specialty
      max_results).1.publications.Pairwise (fun a b => pubLE a b = true) ∧
    (fetch_pubmed_publications es ef first_name last_name city state specialty
      max_results).1.unverified_publications.Pairwise (fun a b => pubLE a b = true) := by
  have hguard : (last_name.isEmpty || first_name.isEmpty) = false := by
    cases last_name with
    | nil => exact absurd rfl hl
    | cons a l =>
      cases first_name with
      | nil => exact absurd rfl hf
      | cons b m => rfl
  have hpm : pmids.isEmpty = false := by
    cases pmids with
    | nil => exact absurd rfl hne
    | cons a l => rfl
  have hpub : (fetch_pubmed_publications es ef first_name last_name city state specialty
      max_results).1.publications =
      ((articles.map (mkPubEntry first_name last_name city state specialty)).filter
        (fun e => isVerifiedConf e.confidence)).mergeSort pubLE := by
    unfold fetch_pubmed_publications
    rw [if_neg (by simp [hguard])]
    dsimp only
    rw [hrun, if_neg (by simp [hpm]), hef]
  have hunv : (fetch_pubmed_publications es ef first_name last_name city state specialty
      max_results).1.unverified_publications =
      ((articles.map (mkPubEntry first_name last_name city state specialty)).filter
        (fun e => !isVerifiedConf e.confidence)).mergeSort pubLE := by
    unfold fetch_pubmed_publications
    rw [if_neg (by simp [hguard])]
    dsimp only
    rw [hrun, if_neg (by simp [hpm]), hef]
  have htri : ∀ e ∈ articles.map (mkPubEntry first_name last_name city state specialty),
      e.confidence = "high".toList ∨ e.confidence = "medium".toList ∨
        e.confidence = "low".toList := by
    intro e he
    obtain ⟨art, hart, hme⟩ := List.mem_map.1 he
    rw [← hme, mkPubEntry_conf]
    split
    · exact Or.inl rfl
    · split
      · exact Or.inr (Or.inl rfl)
      · exact Or.inr (Or.inr rfl)
  have hA : ∀ e ∈ articles.map (mkPubEntry first_name last_name city state specialty),
      (e.confidence = "high".toList ↔ 50 ≤ e.match_score) ∧
      (e.confidence = "medium".toList ↔ 30 ≤ e.match_score ∧ e.match_score < 50) ∧
      (e.confidence = "low".toList ↔ e.match_score < 30) := by
    intro e he
    obtain ⟨art, hart, hme⟩ := List.mem_map.1 he
    subst hme
    have hc := mkPubEntry_conf first_name last_name city state specialty art
    by_cases h50 : 50 ≤ (mkPubEntry first_name last_name city state specialty
        art).match_score
    · rw [if_pos h50] at hc
      rw [hc]
      exact ⟨⟨fun _ => h50, fun _ => rfl⟩,
        ⟨fun h => absurd h (by decide), fun h => False.elim (by omega)⟩,
        ⟨fun h => absurd h (by decide), fun h => False.elim (by omega)⟩⟩
    · by_cases h30 : 30 ≤ (mkPubEntry first_name last_name city state specialty
          art).match_score
      · rw [if_neg h50, if_pos h30] at hc
        rw [hc]
        exact ⟨⟨fun h => absurd h (by decide), fun h => False.elim (by omega)⟩,
          ⟨fun _ => ⟨h30, by omega⟩, fun _ => rfl⟩,
          ⟨fun h => absurd h (by decide), fun h => False.elim (by omega)⟩⟩
      · rw [if_neg h50, if_neg h30] at hc
        rw [hc]
        exact ⟨⟨fun h => absurd h (by decide), fun h => False.elim (by omega)⟩,
          ⟨fun h => absurd h (by decide), fun h => False.elim (by omega)⟩,
          ⟨fun _ => by omega, fun _ => rfl⟩⟩
  refine ⟨hA, ?_, ?_, ?_, ?_, ?_, ?_, ?_⟩
  · rw [hpub]
    exact List.mergeSort_perm _ _
  · rw [hunv]
    exact List.mergeSort_perm _ _
  · have hp1 : (fetch_pubmed_publications es ef first_name last_name city state specialty
        max_results).1.publications.Perm
        ((articles.map (mkPubEntry first_name last_name city state specialty)).filter
          (fun e => isVerifiedConf e.confidence)) := by
      rw [hpub]
      exact List.mergeSort_perm _ _
    have hp2 : (fetch_pubmed_publications es ef first_name last_name city state specialty
        max_results).1.unverified_publications.Perm
        ((articles.map (mkPubEntry first_name last_name city state specialty)).filter
          (fun e => !isVerifiedConf e.confidence)) := by
      rw [hunv]
      exact List.mergeSort_perm _ _
    exact (hp1.append hp2).trans (List.filter_append_perm _ _)
  · intro e
    rw [hpub]
    simp only [List.mem_mergeSort, List.mem_filter]
    constructor
    · rintro ⟨h1, h2⟩
      refine ⟨h1, ?_⟩
      simpa [isVerifiedConf] using h2
    · rintro ⟨h1, h2⟩
      refine ⟨h1, ?_⟩
      simpa [isVerifiedConf] using h2
  · intro e
    rw [hunv]
    simp only [List.mem_mergeSort, List.mem_filter]
    constructor
    · rintro ⟨h1, h2⟩
      refine ⟨h1, ?_⟩
      have hnv : ¬ (e.confidence = "high".toList ∨ e.confidence = "medium".toList) := by
        simpa [isVerifiedConf] using h2
      rcases htri e h1 with h | h | h
      · exact absurd (Or.inl h) hnv
      · exact absurd (Or.inr h) hnv
      · exact h
    · rintro ⟨h1, h2⟩
      refine ⟨h1, ?_⟩
      simp [isVerifiedConf, h2]
  · rw [hpub]
    exact List.sorted_mergeSort pubLE_trans pubLE_total _
  · rw [hunv]
    exact List.sorted_mergeSort pubLE_trans pubLE_total _

/-- C5 witness: the tiering/partition/ordering theorem at a concrete
one-article fixture. -/
theorem C5_witness :
    (∀ e ∈ C5entries,
      (e.confidence = "high".toList ↔ 50 ≤ e.match_score) ∧
      (e.confidence = "medium".toList ↔ 30 ≤ e.match_score ∧ e.match_score < 50) ∧
      (e.confidence = "low".toList ↔ e.match_score < 30)) ∧
    C5res.publications.Perm (C5entries.filter (fun e => isVerifiedConf e.confidence)) ∧
    C5res.unverified_publications.Perm
      (C5entries.filter (fun e => !isVerifiedConf e.confidence)) ∧
    (C5res.publications ++ C5res.unverified_publications).Perm C5entries ∧
    (∀ e, e ∈ C5res.publications ↔ e ∈ C5entries ∧
      (e.confidence = "high".toList ∨ e.confidence = "medium".toList)) ∧
    (∀ e, e ∈ C5res.unverified_publications ↔ e ∈ C5entries ∧
      e.confidence = "low".toList) ∧
    C5res.publications.Pairwise (fun a b => pubLE a b = true) ∧
    C5res.unverified_publications.Pairwise (fun a b => pubLE a b = true) :=
  C5_tiering_partition_order C5es C5ef "Evan".toList "Joyce".toList none none none 30
    ["11".toList] [C5article] (by decide) (by decide) (by decide) (by decide) rfl

/-! ## C8: the query-strategy accumulation loop -/

theorem dedupUnion_mem (i : Str) : ∀ (new acc : List Str),
    i ∈ dedupUnion acc new ↔ i ∈ acc ∨ i ∈ new := by
  intro new
  induction new with
  | nil => intro acc; simp [dedupUnion]
  | cons n ns ih =>
    intro acc
    show i ∈ dedupUnion (if acc.contains n then acc else acc ++ [n]) ns ↔ _
    rw [ih]
    by_cases hc : acc.contains n = true
    · have hn : n ∈ acc := by simpa using hc
      simp only [hc, if_true, List.mem_cons]
      constructor
      · rintro (h | h)
        · exact Or.inl h
        · exact Or.inr (Or.inr h)
      · rintro (h | h | h)
        · exact Or.inl h
        · exact Or.inl (h ▸ hn)
        · exact Or.inr h
    · simp only [hc, Bool.false_eq_true, if_false, List.mem_append, List.mem_singleton,
        List.mem_cons]
      tauto

theorem dedupUnion_nodup : ∀ (new acc : List Str), acc.Nodup → (dedupUnion acc new).Nodup := by
  intro new
  induction new with
  | nil => intro acc h; simpa [dedupUnion] using h
  | cons n ns ih =>
    intro acc h
    show (dedupUnion (if acc.contains n then acc else acc ++ [n]) ns).Nodup
    by_cases hc : acc.contains n = true
    · rw [if_pos hc]
      exact ih acc h
    · rw [if_neg hc]
      refine ih (acc ++ [n]) ?_
      rw [List.nodup_append]
      refine ⟨h, by simp, ?_⟩
      intro x hx hx2
      simp only [List.mem_singleton] at hx2
      subst hx2
      exact absurd hx (by simpa using hc)

theorem runQueries_front (es : Str → Option (List Str)) (maxR : Nat) :
    ∀ (qs acc : List Str), (runQueries es maxR qs acc).2 <+: qs := by
  intro qs
  induction qs with
  | nil => intro acc; exact List.nil_prefix
  | cons q rest ih =>
    intro acc
    unfold runQueries
    by_cases hle : maxR ≤ acc.length
    · rw [if_pos hle]
      exact List.nil_prefix
    · rw [if_neg hle]
      dsimp only
      obtain ⟨t, ht⟩ := ih (match es q with
        | some pmids => dedupUnion acc pmids
        | none => acc)
      exact ⟨t, by rw [List.cons_append, ht]⟩

theorem runQueries_mem (es : Str → Option (List Str)) (maxR : Nat) :
    ∀ (qs acc : List Str) (i : Str),
      i ∈ (runQueries es maxR qs acc).1 ↔
        i ∈ acc ∨ ∃ q ∈ (runQueries es maxR qs acc).2, ∃ ids, es q = some ids ∧ i ∈ ids := by
  intro qs
  induction qs with
  | nil => intro acc i; simp [runQueries]
  | cons q rest ih =>
    intro acc i
    unfold runQueries
    by_cases hle : maxR ≤ acc.length
    · rw [if_pos hle]
      simp
    · rw [if_neg hle]
      cases hes : es q with
      | none =>
        simp only
        rw [ih acc i]
        constructor
        · rintro (h | ⟨q2, hq2, ids, hids, hi⟩)
          · exact Or.inl h
          · exact Or.inr ⟨q2, List.mem_cons_of_mem q hq2, ids, hids, hi⟩
        · rintro (h | ⟨q2, hq2, ids, hids, hi⟩)
          · exact Or.inl h
          · rcases List.mem_cons.1 hq2 with rfl | hq3
            · rw [hes] at hids; exact absurd hids (by simp)
            · exact Or.inr ⟨q2, hq3, ids, hids, hi⟩
      | some pmids =>
        simp only
        rw [ih (dedupUnion acc pmids) i, dedupUnion_mem]
        constructor
        · rintro ((h | h) | ⟨q2, hq2, ids, hids, hi⟩)
          · exact Or.inl h
          · exact Or.inr ⟨q, List.mem_cons_self q _, pmids, hes, h⟩
          · exact Or.inr ⟨q2, List.mem_cons_of_mem q hq2, ids, hids, hi⟩
        · rintro (h | ⟨q2, hq2, ids, hids, hi⟩)
          · exact Or.inl (Or.inl h)
          · rcases List.mem_cons.1 hq2 with rfl | hq3
            · rw [hes] at hids
              injection hids with hids2
              subst hids2
              exact Or.inl (Or.inr hi)
            · exact Or.inr ⟨q2, hq3, ids, hids, hi⟩

theorem runQueries_nodup (es : Str → Option (List Str)) (maxR : Nat) :
    ∀ (qs acc : List Str), acc.Nodup → (runQueries es maxR qs acc).1.Nodup := by
  intro qs
  induction qs with
  | nil => intro acc h; exact h
  | cons q rest ih =>
    intro acc h
    unfold runQueries
    by_cases hle : maxR ≤ acc.length
    · rw [if_pos hle]
      exact h
    · rw [if_neg hle]
      cases hes : es q with
      | none => exact ih acc h
      | some pmids => exact ih (dedupUnion acc pmids) (dedupUnion_nodup pmids acc h)

theorem runQueries_stop (es : Str → Option (List Str)) (maxR : Nat) :
    ∀ (qs acc : List Str), (runQueries es maxR qs acc).2 ≠ qs →
      maxR ≤ (runQueries es maxR qs acc).1.length := by
  intro qs
  induction qs with
  | nil => intro acc h; exact absurd rfl h
  | cons q rest ih =>
    intro acc h
    unfold runQueries at h ⊢
    by_cases hle : maxR ≤ acc.length
    · rw [if_pos hle]
      exact hle
    · rw [if_neg hle] at h ⊢
      refine ih _ ?_
      intro h2
      exact h (by simp [h2])

theorem runQueries_issue_below (es : Str → Option (List Str)) (maxR : Nat) :
    ∀ (qs acc : List Str) (n : Nat), n < (runQueries es maxR qs acc).2.length →
      (runQueries es maxR (qs.take n) acc).1.length < maxR := by
  intro qs
  induction qs with
  | nil => intro acc n h; simp [runQueries] at h
  | cons q rest ih =>
    intro acc n h
    unfold runQueries at h
    by_cases hle : maxR ≤ acc.length
    · rw [if_pos hle] at h
      simp at h
    · rw [if_neg hle] at h
      cases n with
      | zero =>
        simpa [runQueries] using Nat.lt_of_not_le hle
      | succ n2 =>
        simp only [List.take_succ_cons]
        show (runQueries es maxR (q :: rest.take n2) acc).1.length < maxR
        unfold runQueries
        rw [if_neg hle]
        simp only [List.length_cons] at h
        exact ih _ n2 (by omega)

/-- C8: the matcher's query strategies are built in fixed order
(domain-keyword strategy; state-affiliation strategy only with a state
hint; city-affiliation strategy only with a city hint; unfiltered
fallback); the loop executes a prefix of that list, accumulating candidate
IDs as a duplicate-free set union over exactly the strategies issued;
each strategy is issued only while the accumulated set is still below
`maxResults`, and the loop stops early only once the set has reached
`maxResults`. -/
theorem C8_query_strategies (es : Str → Option (List Str)) (last_name : Str) (fi : Char)
    (maxR : Nat) :
    (∀ st ci : Str, st ≠ [] → ci ≠ [] →
      buildQueries last_name fi (some st) (some ci) =
        [kwQuery last_name fi, stateQuery last_name fi st, cityQuery last_name fi ci,
         fallbackQuery last_name fi]) ∧
    (∀ st : Str, st ≠ [] → buildQueries last_name fi (some st) none =
      [kwQuery last_name fi, stateQuery last_name fi st, fallbackQuery last_name fi]) ∧
    (∀ ci : Str, ci ≠ [] → buildQueries last_name fi none (some ci) =
      [kwQuery last_name fi, cityQuery last_name fi ci, fallbackQuery last_name fi]) ∧
    (buildQueries last_name fi none none =
      [kwQuery last_name fi, fallbackQuery last_name fi]) ∧
    (∀ state city : Option Str,
      (runQueries es maxR (buildQueries last_name fi state city) []).2 <+:
        buildQueries last_name fi state city) ∧
    (∀ (state city : Option Str) (i : Str),
      i ∈ (runQueries es maxR (buildQueries last_name fi state city) []).1 ↔
        ∃ q ∈ (runQueries es maxR (buildQueries last_name fi state city) []).2,
          ∃ ids, es q = some ids ∧ i ∈ ids) ∧
    (∀ state city : Option Str,
      (runQueries es maxR (buildQueries last_name fi state city) []).1.Nodup) ∧
    (∀ state city : Option Str,
      (runQueries es maxR (buildQueries last_name fi state city) []).2 ≠
          buildQueries last_name fi state city →
        maxR ≤ (runQueries es maxR (buildQueries last_name fi state city) []).1.length) ∧
    (∀ (state city : Option Str) (n : Nat),
      n < (runQueries es maxR (buildQueries last_name fi state city) []).2.length →
        (runQueries es maxR ((buildQueries last_name fi state city).take n) []).1.length <
          maxR) := by
  refine ⟨?_, ?_, ?_, ?_, ?_, ?_, ?_, ?_, ?_⟩
  · intro st ci hst hci
    have h1 : st.isEmpty = false := by cases st with
      | nil => exact absurd rfl hst
      | cons a l => rfl
    have h2 : ci.isEmpty = false := by cases ci with
      | nil => exact absurd rfl hci
      | cons a l => rfl
    simp [buildQueries, h1, h2]
  · intro st hst
    have h1 : st.isEmpty = false := by cases st with
      | nil => exact absurd rfl hst
      | cons a l => rfl
    simp [buildQueries, h1]
  · intro ci hci
    have h2 : ci.isEmpty = false := by cases ci with
      | nil => exact absurd rfl hci
      | cons a l => rfl
    simp [buildQueries, h2]
  · simp [buildQueries]
  · intro state city
    exact runQueries_front es maxR _ []
  · intro state city i
    rw [runQueries_mem es maxR _ [] i]
    simp
  · intro state city
    exact runQueries_nodup es maxR _ [] (by simp)
  · intro state city
    exact runQueries_stop es maxR _ []
  · intro state city n
    exact runQueries_issue_below es maxR _ [] n

/-- C8 witness: the strategy-loop theorem at concrete inputs, including an
early stop (`maxResults = 1` with a two-ID first response: only the first
strategy is issued and the loop stops with the set at size 2 ≥ 1). -/
theorem C8_witness :
    buildQueries "Joyce".toList 'E' (some "ID".toList) (some "Boise".toList) =
      [kwQuery "Joyce".toList 'E', stateQuery "Joyce".toList 'E' "ID".toList,
       cityQuery "Joyce".toList 'E' "Boise".toList, fallbackQuery "Joyce".toList 'E'] ∧
    ((runQueries (fun _ => some ["a".toList, "b".toList]) 1
        (buildQueries "Joyce".toList 'E' none none) []).2 ≠
        buildQueries "Joyce".toList 'E' none none →
      1 ≤ (runQueries (fun _ => some ["a".toList, "b".toList]) 1
        (buildQueries "Joyce".toList 'E' none none) []).1.length) ∧
    (0 < (runQueries (fun _ => some ["a".toList, "b".toList]) 1
        (buildQueries "Joyce".toList 'E' none none) []).2.length →
      (runQueries (fun _ => some ["a".toList, "b".toList]) 1
        ((buildQueries "Joyce".toList 'E' none none).take 0) []).1.length < 1) :=
  ⟨(C8_query_strategies (fun _ => some ["a".toList, "b".toList]) "Joyce".toList 'E'
      1).1 "ID".toList "Boise".toList (by decide) (by decide),
   (C8_query_strategies (fun _ => some ["a".toList, "b".toList]) "Joyce".toList 'E'
      1).2.2.2.2.2.2.2.1 none none,
   fun h => (C8_query_strategies (fun _ => some ["a".toList, "b".toList]) "Joyce".toList 'E'
      1).2.2.2.2.2.2.2.2 none none 0 h⟩

/-! ## C9: empty surname is a terminal input error with no collaborator
calls -/

theorem truncLastAtComma_length (l : List Str) :
    (truncLastAtComma l).length = l.length := by
  unfold truncLastAtComma
  split
  · rfl
  · next t hg =>
    split
    · have hne : l ≠ [] := by
        intro h2
        rw [h2] at hg
        simp at hg
      have hpos : 0 < l.length := List.length_pos.2 hne
      simp only [List.length_append, List.length_dropLast, List.length_singleton]
      omega
    · rfl

theorem strippedTokens_length_le (s : Str) :
    (strippedTokens s).length ≤ (splitWS s).length := by
  unfold strippedTokens dropTrailing
  have h1 := (List.dropWhile_sublist (l := ((splitWS s).dropWhile isTitleToken).reverse)
    isCredToken).length_le
  have h2 := (List.dropWhile_sublist (l := splitWS s) isTitleToken).length_le
  simp only [List.length_reverse] at h1 ⊢
  omega

/-- C9: whenever the normalized name has an empty surname, the pipeline
returns the input-error dictionary immediately and the collaborator call
log is empty (no payments-store, registry, education or literature-index
call is issued); moreover any input that tokenizes to at most one
whitespace token (in particular the empty string and every single-token
name) normalizes to an empty surname. -/
theorem C9_empty_surname_no_calls (c : Collabs) (physician_name : Str)
    (state city : Option Str)
    (h : (parse_physician_name physician_name).last = []) :
    run_dossier_pipeline c physician_name state city =
      (.err "Could not parse physician name. Please enter first and last name.".toList,
       []) ∧
    (∀ s : Str, (splitWS s).length ≤ 1 → (parse_physician_name s).last = []) := by
  constructor
  · unfold run_dossier_pipeline
    rw [if_pos (by simp [h])]
  · intro s hs
    unfold parse_physician_name
    split
    · rfl
    · rw [if_pos]
      have h1 := truncLastAtComma_length (strippedTokens s)
      have h2 := strippedTokens_length_le s
      omega

/-- C9 witness: the input-error theorem at the empty input and at the
single-token input `"Smith"`. -/
theorem C9_witness :
    run_dossier_pipeline C9collabs "".toList none none =
      (.err "Could not parse physician name. Please enter first and last name.".toList,
       []) ∧
    run_dossier_pipeline C9collabs "Smith".toList none none =
      (.err "Could not parse physician name. Please enter first and last name.".toList,
       []) ∧
    (splitWS "Smith".toList).length ≤ 1 ∧
    (parse_physician_name "Smith".toList).last = [] :=
  ⟨(C9_empty_surname_no_calls C9collabs "".toList none none (by decide)).1,
   (C9_empty_surname_no_calls C9collabs "Smith".toList none none (by decide)).1,
   by decide,
   (C9_empty_surname_no_calls C9collabs "Smith".toList none none (by decide)).2
     "Smith".toList (by decide)⟩

/-! ## C2 and C4: source precedence and the payment-query policy -/

theorem fetch_pubmed_calls (es : Str → Option (List Str))
    (ef : List Str → Option (List PubArticle)) (f l : Str)
    (c s sp : Option Str) (maxR : Nat) :
    ∀ e ∈ (fetch_pubmed_publications es ef f l c s sp maxR).2,
      (∃ t, e = Call.pubmedSearch t) ∨ (∃ ids, e = Call.pubmedFetch ids) := by
  unfold fetch_pubmed_publications
  split
  · simp
  · dsimp only
    split
    · intro e he
      obtain ⟨t, _, rfl⟩ := List.mem_map.1 he
      exact Or.inl ⟨t, rfl⟩
    · cases hef : ef ((runQueries es maxR
          (buildQueries l (Char.toUpper (f.headD ' ')) s c) []).1.take maxR) with
      | none =>
        intro e he
        rcases List.mem_append.1 he with h1 | h2
        · obtain ⟨t, _, rfl⟩ := List.mem_map.1 h1
          exact Or.inl ⟨t, rfl⟩
        · simp only [List.mem_singleton] at h2
          subst h2
          exact Or.inr ⟨_, rfl⟩
      | some articles =>
        intro e he
        rcases List.mem_append.1 he with h1 | h2
        · obtain ⟨t, _, rfl⟩ := List.mem_map.1 h1
          exact Or.inl ⟨t, rfl⟩
        · simp only [List.mem_singleton] at h2
          subst h2
          exact Or.inr ⟨_, rfl⟩

theorem fetch_pubmed_no_registry (es : Str → Option (List Str))
    (ef : List Str → Option (List PubArticle)) (f l : Str)
    (c s sp : Option Str) (maxR : Nat) :
    (fetch_pubmed_publications es ef f l c s sp maxR).2.any isNpiRegistryCall = false := by
  rw [List.any_eq_false]
  intro e he
  rcases fetch_pubmed_calls es ef f l c s sp maxR e he with ⟨t, rfl⟩ | ⟨ids, rfl⟩ <;> simp [isNpiRegistryCall]

theorem fetch_pubmed_no_cmsByNpi (es : Str → Option (List Str))
    (ef : List Str → Option (List PubArticle)) (f l : Str)
    (c s sp : Option Str) (maxR : Nat) :
    (fetch_pubmed_publications es ef f l c s sp maxR).2.any isCmsByNpiCall = false := by
  rw [List.any_eq_false]
  intro e he
  rcases fetch_pubmed_calls es ef f l c s sp maxR e he with ⟨t, rfl⟩ | ⟨ids, rfl⟩ <;> simp [isCmsByNpiCall]

theorem lookup_npi_log (registry : Str → Str → Option Str → Option Str →
    Except Str (List NpiEntry)) (f l : Str) (st ci : Option Str) :
    (lookup_npi registry f l st ci).2 = [Call.npiRegistry f l st ci] := by
  unfold lookup_npi
  cases registry f l st ci with
  | error e => rfl
  | ok entries =>
    cases entries with
    | nil => rfl
    | cons e0 es =>
      dsimp only
      cases ((e0 :: es).map (mkScored st ci)).mergeSort scoredGE with
      | nil => rfl
      | cons b bs => rfl

theorem resolveIdentity_log (c : Collabs) (f l : Str) (st ci : Option Str)
    (cr : CmsResult) :
    (resolveIdentity c f l st ci cr).2.2 = [] ∨
      (resolveIdentity c f l st ci cr).2.2 = [Call.npiRegistry f l st ci] := by
  unfold resolveIdentity
  cases hpf : cr.payments_found with
  | true =>
    cases hpi : cr.physician_info with
    | some info => exact Or.inl rfl
    | none => exact Or.inr (lookup_npi_log c.registry f l st ci)
  | false => exact Or.inr (lookup_npi_log c.registry f l st ci)

theorem fetch_cms_none_log (db : CmsDb) (f l : Str) :
    (fetch_cms_payments_from_db db f l none).2 = [] ∨
      (fetch_cms_payments_from_db db f l none).2 = [Call.cmsByName f l] := by
  unfold fetch_cms_payments_from_db
  split
  · exact Or.inl rfl
  · dsimp only
    cases db.byName f l with
    | error e => exact Or.inr rfl
    | ok rows => exact Or.inr rfl

/-- C2: whenever the name-filtered payments-store query returns at least
one row, the pipeline builds the resolved identity from the first (most
recent) returned row's embedded physician fields with source
`"CMS Database"`, and the registry (NPI) lookup is never issued —
the registry fallback runs only when the direct-store tier yields
nothing. -/
theorem C2_direct_store_precedence (c : Collabs) (physician_name : Str)
    (state city : Option Str) (r0 : CmsRow) (rest : List CmsRow)
    (hlast : (parse_physician_name physician_name).last ≠ [])
    (havail : c.db.available = true)
    (hq : c.db.byName (parse_physician_name physician_name).first
      (parse_physician_name physician_name).last = .ok (r0 :: rest)) :
    pipelineNpiData (run_dossier_pipeline c physician_name state city).1 =
      some { emptyNpiData with
        found := true, npi := r0.npi, verified_name := r0.name,
        specialty := r0.specialty, address := some ⟨r0.state, r0.city⟩,
        source := "CMS Database".toList } ∧
    (run_dossier_pipeline c physician_name state city).2.any isNpiRegistryCall = false := by
  have hcms : fetch_cms_payments_from_db c.db (parse_physician_name physician_name).first
      (parse_physician_name physician_name).last none =
      (aggregateCms (r0 :: rest),
       [Call.cmsByName (parse_physician_name physician_name).first
         (parse_physician_name physician_name).last]) := by
    unfold fetch_cms_payments_from_db
    rw [havail, if_neg (by simp)]
    dsimp only
    rw [hq]
  have hagg : aggregateCms (r0 :: rest) =
      { payments_found := true
        total_competitor_amount := (totalsOf (companyTotals (r0 :: rest))).1
        total_jnj_amount := (totalsOf (companyTotals (r0 :: rest))).2
        relationships := (companyTotals (r0 :: rest)).mergeSort relLE
        physician_info := some ⟨r0.name, r0.npi, r0.specialty, r0.city, r0.state⟩
        error := none } := rfl
  unfold run_dossier_pipeline
  rw [if_neg (by simp [hlast])]
  dsimp only
  rw [hcms, hagg]
  unfold resolveIdentity
  dsimp only
  constructor
  · rfl
  · rw [List.any_eq_false]
    intro e he
    simp only [List.cons_append, List.nil_append, List.mem_cons] at he
    rcases he with rfl | rfl | he
    · simp [isNpiRegistryCall]
    · simp [isNpiRegistryCall]
    · rcases fetch_pubmed_calls c.esearch c.efetch
          (parse_physician_name physician_name).first
          (parse_physician_name physician_name).last _ _ _ _ e he with
        ⟨t, rfl⟩ | ⟨ids, rfl⟩ <;> simp [isNpiRegistryCall]

/-- C2 witness: the precedence theorem at a concrete collaborator bundle
whose payments store returns one row for `"Evan Joyce"`. -/
theorem C2_witness :
    pipelineNpiData (run_dossier_pipeline C2collabs "Evan Joyce".toList none none).1 =
      some { emptyNpiData with
        found := true, npi := C2row.npi, verified_name := C2row.name,
        specialty := C2row.specialty, address := some ⟨C2row.state, C2row.city⟩,
        source := "CMS Database".toList } ∧
    (run_dossier_pipeline C2collabs "Evan Joyce".toList none none).2.any
      isNpiRegistryCall = false :=
  C2_direct_store_precedence C2collabs "Evan Joyce".toList none none C2row []
    (by decide) (by decide) rfl

/-- C4 counterexample: with a payments store that knows the physician's
identifier, the end-to-end pipeline resolves an identity whose NPI is
known (`"123"`), yet the payment-aggregation query it issued was the
name-filtered one and no identifier-filtered query was ever issued —
the identifier-exclusive filter is not what the pipeline exercises. -/
theorem C4_counterexample :
    resolvedNpiOf (run_dossier_pipeline C4collabs "Evan Joyce".toList none none).1 =
      some "123".toList ∧
    (run_dossier_pipeline C4collabs "Evan Joyce".toList none none).2.any
      isCmsByNameCall = true ∧
    (run_dossier_pipeline C4collabs "Evan Joyce".toList none none).2.any
      isCmsByNpiCall = false := by
  refine ⟨?_, ?_, ?_⟩ <;> decide

/-- C4 (amended): `fetch_cms_payments_from_db` filters by the external
identifier exclusively exactly when its caller passes one, and by the
normalized name otherwise; but the end-to-end pipeline always invokes it
in name mode (payment aggregation precedes identifier resolution), so an
identifier-filtered payments query is never issued by any pipeline run. -/
theorem C4_payment_query_policy_amended (db : CmsDb) (f l : Str) (npi : Str)
    (havail : db.available = true) :
    (fetch_cms_payments_from_db db f l (some npi)).2 = [Call.cmsByNpi npi] ∧
    (fetch_cms_payments_from_db db f l none).2 = [Call.cmsByName f l] ∧
    (∀ (c : Collabs) (physician_name : Str) (state city : Option Str),
      (run_dossier_pipeline c physician_name state city).2.any isCmsByNpiCall =
        false) := by
  refine ⟨?_, ?_, ?_⟩
  · unfold fetch_cms_payments_from_db
    rw [havail]
    dsimp only
    cases db.byNpi npi with
    | error e => rfl
    | ok rows => rfl
  · unfold fetch_cms_payments_from_db
    rw [havail]
    dsimp only
    cases db.byName f l with
    | error e => rfl
    | ok rows => rfl
  · intro c physician_name state city
    unfold run_dossier_pipeline
    dsimp only
    split
    · rfl
    · rw [List.any_eq_false]
      intro e he
      rcases List.mem_append.1 he with h1 | h2
      · rcases List.mem_append.1 h1 with h3 | h4
        · rcases List.mem_append.1 h3 with h5 | h6
          · rcases fetch_cms_none_log c.db (parse_physician_name physician_name).first
                (parse_physician_name physician_name).last with hl | hl <;> rw [hl] at h5
            · simp at h5
            · simp only [List.mem_singleton] at h5
              subst h5
              simp [isCmsByNpiCall]
          · rcases resolveIdentity_log c (parse_physician_name physician_name).first
                (parse_physician_name physician_name).last state city
                (fetch_cms_payments_from_db c.db
                  (parse_physician_name physician_name).first
                  (parse_physician_name physician_name).last none).1 with hl | hl <;>
              rw [hl] at h6
            · simp at h6
            · simp only [List.mem_singleton] at h6
              subst h6
              simp [isCmsByNpiCall]
        · simp only [List.mem_singleton] at h4
          subst h4
          simp [isCmsByNpiCall]
      · rcases fetch_pubmed_calls c.esearch c.efetch
            (parse_physician_name physician_name).first
            (parse_physician_name physician_name).last _ _ _ _ e h2 with
          ⟨t, rfl⟩ | ⟨ids, rfl⟩ <;> simp [isCmsByNpiCall]

/-- C4 witness: the amended policy theorem at a concrete store and the
concrete collaborator bundle of the counterexample. -/
theorem C4_witness :
    (fetch_cms_payments_from_db C4collabs.db "Evan".toList "Joyce".toList
      (some "123".toList)).2 = [Call.cmsByNpi "123".toList] ∧
    (fetch_cms_payments_from_db C4collabs.db "Evan".toList "Joyce".toList none).2 =
      [Call.cmsByName "Evan".toList "Joyce".toList] ∧
    (run_dossier_pipeline C4collabs "Evan Joyce".toList none none).2.any
      isCmsByNpiCall = false :=
  ⟨(C4_payment_query_policy_amended C4collabs.db "Evan".toList "Joyce".toList
      "123".toList (by decide)).1,
   (C4_payment_query_policy_amended C4collabs.db "Evan".toList "Joyce".toList
      "123".toList (by decide)).2.1,
   (C4_payment_query_policy_amended C4collabs.db "Evan".toList "Joyce".toList
      "123".toList (by decide)).2.2 C4collabs "Evan Joyce".toList none none⟩

end Dossier
